import Mathlib

/-!
Verification of the SimplyMiply two-pass assembler (SMA.py) and single-pass
disassembler (SMD.py).  Source strings are modelled as `List Char`; Python's
unbounded integers as `Int`/`Nat`.  Raised `ValueError`s are modelled by the
`AsmErr` error type inside `Except`.  Each definition mirrors one Python
function of the repository; names follow the source.
-/

/-- Error conditions raised by the assembler (Python `ValueError` sites,
distinguished by their message text in the source). -/
inductive AsmErr where
  | invalidRegister
  | immediateOutOfRange
  | invalidImmediate
  | malformedOperand
  | unknownInstruction
  | operandCountMismatch
  | undefinedLabel
  | duplicateLabel
  | encodingWidthError
  | emptyLine
  | valueError
  deriving DecidableEq, Repr

instance {ε α : Type} [DecidableEq ε] [DecidableEq α] : DecidableEq (Except ε α) := by
  intro a b
  cases a <;> cases b
  case error.error e e' =>
    cases decEq e e' with
    | isTrue h => exact isTrue (by rw [h])
    | isFalse h => exact isFalse (by intro hc; cases hc; exact h rfl)
  case ok.ok x x' =>
    cases decEq x x' with
    | isTrue h => exact isTrue (by rw [h])
    | isFalse h => exact isFalse (by intro hc; cases hc; exact h rfl)
  case error.ok e x => exact isFalse (by intro hc; cases hc)
  case ok.error x e => exact isFalse (by intro hc; cases hc)

/-! ## Base-b digit strings

Python's `format(n, '0{w}b')`, `str(n)` and `int(s)` are modelled from
scratch with structural (fuel-based) recursion so that every definition
evaluates by kernel reduction. -/

/-- Little-endian base-`b` digits of `n`, with explicit fuel (the fuel is
always instantiated with `n` itself, which suffices since `n / b < n`). -/
def toBaseAux (b : Nat) : Nat → Nat → List Nat
  | 0, _ => []
  | _ + 1, 0 => []
  | fuel + 1, n + 1 => ((n + 1) % b) :: toBaseAux b fuel ((n + 1) / b)

/-- Little-endian base-`b` digits of `n` (empty for `n = 0`). -/
def toBaseLE (b n : Nat) : List Nat := toBaseAux b n n

/-- Horner evaluation of a little-endian digit list. -/
def hornerLE (b : Nat) (l : List Nat) : Nat := l.foldr (fun d acc => d + b * acc) 0

theorem toBaseAux_eval (b : Nat) (hb : 2 ≤ b) :
    ∀ fuel n, n ≤ fuel → hornerLE b (toBaseAux b fuel n) = n := by
  intro fuel
  induction fuel with
  | zero => intro n hn; interval_cases n; rfl
  | succ f ih =>
    intro n hn
    match n with
    | 0 => rfl
    | m + 1 =>
      have hdiv : (m + 1) / b < m + 1 := Nat.div_lt_self (Nat.succ_pos m) (by omega)
      have hle : (m + 1) / b ≤ f := by omega
      simp only [toBaseAux, hornerLE, List.foldr_cons]
      have := ih ((m + 1) / b) hle
      simp only [hornerLE] at this
      rw [this, Nat.add_comm, Nat.div_add_mod]

theorem toBaseLE_eval (b : Nat) (hb : 2 ≤ b) (n : Nat) : hornerLE b (toBaseLE b n) = n :=
  toBaseAux_eval b hb n n le_rfl

theorem toBaseAux_lt (b : Nat) (hb : 2 ≤ b) :
    ∀ fuel n, ∀ d ∈ toBaseAux b fuel n, d < b := by
  intro fuel
  induction fuel with
  | zero => intro n d hd; simp [toBaseAux] at hd
  | succ f ih =>
    intro n d hd
    match n with
    | 0 => simp [toBaseAux] at hd
    | m + 1 =>
      simp only [toBaseAux, List.mem_cons] at hd
      rcases hd with h | h
      · subst h; exact Nat.mod_lt _ (by omega)
      · exact ih _ _ h

theorem toBaseLE_lt (b : Nat) (hb : 2 ≤ b) (n : Nat) : ∀ d ∈ toBaseLE b n, d < b :=
  toBaseAux_lt b hb n n

theorem toBaseAux_length (b : Nat) (hb : 2 ≤ b) :
    ∀ fuel n w, n ≤ fuel → n < b ^ w → (toBaseAux b fuel n).length ≤ w := by
  intro fuel
  induction fuel with
  | zero => intro n w hn _; interval_cases n; simp [toBaseAux]
  | succ f ih =>
    intro n w hn hw
    match n with
    | 0 => simp [toBaseAux]
    | m + 1 =>
      match w with
      | 0 => rw [pow_zero] at hw; omega
      | v + 1 =>
        have hdiv : (m + 1) / b < m + 1 := Nat.div_lt_self (Nat.succ_pos m) (by omega)
        have h2 : (m + 1) / b < b ^ v := by
          rw [Nat.div_lt_iff_lt_mul (by omega)]
          calc m + 1 < b ^ (v + 1) := hw
          _ = b ^ v * b := by ring
        simp only [toBaseAux, List.length_cons]
        have := ih ((m + 1) / b) v (by omega) h2
        omega

theorem toBaseLE_length (b : Nat) (hb : 2 ≤ b) (n w : Nat) (h : n < b ^ w) :
    (toBaseLE b n).length ≤ w :=
  toBaseAux_length b hb n n w le_rfl h

/-- The decimal digit characters. -/
def digitChar : Nat → Char
  | 0 => '0' | 1 => '1' | 2 => '2' | 3 => '3' | 4 => '4'
  | 5 => '5' | 6 => '6' | 7 => '7' | 8 => '8' | 9 => '9'
  | _ => '?'

theorem digitChar_toNat {d : Nat} (h : d < 10) : (digitChar d).toNat = 48 + d := by
  interval_cases d <;> rfl

theorem digitChar_isDigit {d : Nat} (h : d < 10) : (digitChar d).isDigit = true := by
  interval_cases d <;> rfl

/-- `str(n)` for a natural number: most-significant-first decimal digits. -/
def decChars (n : Nat) : List Char :=
  if n = 0 then ['0'] else ((toBaseLE 10 n).reverse.map digitChar)

/-- `str(v)` for a Python integer: optional minus sign then decimal digits. -/
def intToDecChars (v : Int) : List Char :=
  if v < 0 then '-' :: decChars (-v).toNat else decChars v.toNat

/-- The binary digit characters. -/
def bitChar (d : Nat) : Char := if d = 1 then '1' else '0'

/-- `format(n, '0{w}b')`: binary digits of `n`, left-padded with `'0'` to
width `w` (kept intact when longer than `w`, as in Python). -/
def pyFormatB (n w : Nat) : List Char :=
  let ds := if n = 0 then ['0'] else ((toBaseLE 2 n).reverse.map bitChar)
  List.replicate (w - ds.length) '0' ++ ds

/-- The value `int(s, 2)` computes on a string of binary digits (the
numeric core shared by SMD.py `bin_to_int` and `bin_to_signed_int`; 0 on
the empty string).  The raising behaviour of `int()` on other strings is
modelled by `int2?` and the wrappers `bin_to_int?` / `bin_to_signed_int?`
below, which the disassembler uses. -/
def bin_to_int (s : List Char) : Nat :=
  s.foldl (fun a c => 2 * a + (if c = '1' then 1 else 0)) 0

/-- The two's-complement value SMD.py `bin_to_signed_int` computes on a
string of binary digits (`value & (1 << (bits-1))` is `Nat.testBit` for
the non-negative `value` a binary string yields). -/
def bin_to_signed_int (s : List Char) : Int :=
  if s = [] then 0
  else
    let value := bin_to_int s
    if Nat.testBit value (s.length - 1) then (value : Int) - 2 ^ s.length else (value : Int)

/-- `int()` applied to the decimal text comprised of digits `ds`. -/
def decVal (ds : List Char) : Nat :=
  ds.foldl (fun a c => 10 * a + (c.toNat - 48)) 0

/-- Python `int(s)` on an optionally-signed decimal numeral (the only
shapes fed to it by the assembler); `none` models the `ValueError`. -/
def parseIntChars (cs : List Char) : Option Int :=
  match cs with
  | [] => none
  | c :: t =>
    if c = '-' then
      if !t.isEmpty && t.all Char.isDigit then some (-(decVal t : Int)) else none
    else if (c :: t).all Char.isDigit then some ((decVal (c :: t) : Int)) else none

/-! ## Python string helpers -/

/-- The whitespace characters recognised by Python's `str.split()`/`str.strip()`. -/
def pyIsSpace (c : Char) : Bool :=
  c = ' ' || c = '\t' || c = '\n' || c = '\x0d' || c = '\x0b' || c = '\x0c'

/-- Python `line.split(maxsplit=1)`. -/
def splitMax1 (cs : List Char) : List (List Char) :=
  let cs1 := cs.dropWhile pyIsSpace
  if cs1.isEmpty then []
  else
    let tok := cs1.takeWhile (fun c => !pyIsSpace c)
    let rest := (cs1.dropWhile (fun c => !pyIsSpace c)).dropWhile pyIsSpace
    if rest.isEmpty then [tok] else [tok, rest]

/-- Python `s.strip()`. -/
def pyStrip (cs : List Char) : List Char :=
  ((cs.dropWhile pyIsSpace).reverse.dropWhile pyIsSpace).reverse

/-- The digit part of Python's `int(s, 2)` grammar after the first digit:
binary digits with single underscores allowed between digits (`u` records
whether the previous character was an underscore, which may be neither
repeated nor trailing). -/
def binRestAux : Bool → List Char → Bool
  | u, [] => !u
  | u, c :: t =>
    if c = '_' then
      if u then false else binRestAux true t
    else (c = '0' || c = '1') && binRestAux false t

/-- At least one binary digit, with single underscores between digits. -/
def binGroupOK : List Char → Bool
  | [] => false
  | c :: t => (c = '0' || c = '1') && binRestAux false t

/-- Python `int(s, 2)`: strips surrounding whitespace, then an optional
sign, an optional `0b`/`0B` prefix (a single underscore may follow it),
then binary digits with single underscores between them; every other
string raises `ValueError`, modelled as `none`. -/
def int2? (s : List Char) : Option Int :=
  let t := pyStrip s
  let sgn : Int := match t.head? with | some '-' => -1 | _ => 1
  let t1 := match t with
    | '+' :: r => r
    | '-' :: r => r
    | r => r
  let t2 :=
    if t1.take 2 = ['0', 'b'] ∨ t1.take 2 = ['0', 'B'] then
      if (t1.drop 2).take 1 = ['_'] then t1.drop 3 else t1.drop 2
    else t1
  if binGroupOK t2 then some (sgn * (bin_to_int (t2.filter (· ≠ '_')) : Int))
  else none

/-- SMD.py `bin_to_int` (lines 41-45): 0 on the empty string, otherwise
`int(bin_str, 2)`, whose `ValueError` (`none`) aborts the whole
disassembler run through `run_disassembler`'s `except Exception`. -/
def bin_to_int? (s : List Char) : Option Int :=
  if s = [] then some 0 else int2? s

/-- SMD.py `bin_to_signed_int` (lines 47-55): 0 on the empty string,
otherwise `int(bin_str, 2)` followed by the sign-bit adjustment
`value & (1 << (bits-1)) != 0 → value - (1 << bits)`. -/
def bin_to_signed_int? (s : List Char) : Option Int :=
  if s = [] then some 0
  else
    match int2? s with
    | none => none
    | some value =>
      some (if Int.land value ((2 : Int) ^ (s.length - 1)) ≠ 0
            then value - (2 : Int) ^ s.length else value)

/-- Python `s.split(',')` (keeps empty pieces; `[""]` on the empty string). -/
def splitComma : List Char → List (List Char)
  | [] => [[]]
  | c :: t =>
    if c = ',' then [] :: splitComma t
    else
      match splitComma t with
      | [] => [[c]]
      | h :: r => (c :: h) :: r

/-- First-match association-list lookup, modelling Python `dict` access for
the tables of this program (whose keys are distinct). -/
def alookup {β : Type} (k : List Char) : List (List Char × β) → Option β
  | [] => none
  | (k', v) :: t => if k = k' then some v else alookup k t

/-! ## ISA definition tables (SMA.py lines 8-36, SMD.py lines 8-35) -/

/-- SMA.py `opcodes`: mnemonic → 6-bit opcode string. -/
def opcodes : List (List Char × List Char) :=
  [("clr".data, "000000".data),
   ("cmb".data, "000001".data),
   ("mns".data, "000010".data),
   ("mlt".data, "000011".data),
   ("dvd".data, "000100".data),
   ("cmbi".data, "000101".data),
   ("ldwd".data, "000110".data),
   ("srwd".data, "000111".data),
   ("jmp".data, "001000".data),
   ("pint".data, "001001".data),
   ("pstr".data, "001010".data),
   ("mnsi".data, "001011".data),
   ("mlti".data, "001100".data),
   ("dvdi".data, "001101".data),
   ("for".data, "001110".data),
   ("sqrt".data, "001111".data),
   ("mdlo".data, "010000".data),
   ("sqr".data, "010001".data),
   ("ife".data, "010010".data),
   ("ifne".data, "010011".data),
   ("ldad".data, "010100".data),
   ("ldim".data, "010101".data),
   ("end".data, "111111".data)]

/-- SMA.py `registers`: `%r0` … `%r31` → 5-bit code. -/
def registers : List (List Char × List Char) :=
  (List.range 32).map (fun i => ('%' :: 'r' :: decChars i, pyFormatB i 5))

/-- SMD.py `opcodes_to_mnemonics`: 6-bit opcode string → mnemonic. -/
def opcodes_to_mnemonics : List (List Char × List Char) :=
  [("000000".data, "clr".data),
   ("000001".data, "cmb".data),
   ("000010".data, "mns".data),
   ("000011".data, "mlt".data),
   ("000100".data, "dvd".data),
   ("000101".data, "cmbi".data),
   ("000110".data, "ldwd".data),
   ("000111".data, "srwd".data),
   ("001000".data, "jmp".data),
   ("001001".data, "pint".data),
   ("001010".data, "pstr".data),
   ("001011".data, "mnsi".data),
   ("001100".data, "mlti".data),
   ("001101".data, "dvdi".data),
   ("001110".data, "for".data),
   ("001111".data, "sqrt".data),
   ("010000".data, "mdlo".data),
   ("010001".data, "sqr".data),
   ("010010".data, "ife".data),
   ("010011".data, "ifne".data),
   ("010100".data, "ldad".data),
   ("010101".data, "ldim".data),
   ("111111".data, "end".data)]

/-- SMD.py `registers_to_names`: 5-bit code → `%r0` … `%r31`. -/
def registers_to_names : List (List Char × List Char) :=
  (List.range 32).map (fun i => (pyFormatB i 5, '%' :: 'r' :: decChars i))

/-! ## Field codec (SMA.py lines 42-90) -/

/-- SMA.py `parse_register`. -/
def parse_register (s : List Char) : Except AsmErr (List Char) :=
  match alookup (s.filter (· ≠ ',')) registers with
  | some b => Except.ok b
  | none => Except.error AsmErr.invalidRegister

/-- The numeric core of SMA.py `parse_immediate` (lines 54-70), applied
after `int(imm_str)` has produced `value`. -/
def encode_immediate (value : Int) (bits : Nat) : Except AsmErr (List Char) :=
  let min_val : Int := if 0 < bits then -((2 : Int) ^ (bits - 1)) else 0
  let max_val : Int := if 0 < bits then (2 : Int) ^ bits - 1 else 0
  if value < 0 then
    if value < min_val then Except.error AsmErr.immediateOutOfRange
    else Except.ok (pyFormatB ((value % ((2 : Int) ^ bits)).toNat) bits)
  else if max_val < value then Except.error AsmErr.immediateOutOfRange
  else Except.ok (pyFormatB value.toNat bits)

/-- SMA.py `parse_immediate`: strips commas, runs `int()`, range-checks and
encodes to `bits` binary digits. -/
def parse_immediate (s : List Char) (bits : Nat) : Except AsmErr (List Char) :=
  match parseIntChars (s.filter (· ≠ ',')) with
  | none => Except.error AsmErr.invalidImmediate
  | some v => encode_immediate v bits

/-- The register token `%r\d+` of the memory-operand regex, matched
greedily at the head of `cs`; returns the token and the rest. -/
def matchRegTok (cs : List Char) : Option (List Char × List Char) :=
  if cs.take 2 = ['%', 'r'] then
    let rest := cs.drop 2
    let ds := rest.takeWhile Char.isDigit
    if ds.isEmpty then none else some ('%' :: 'r' :: ds, rest.dropWhile Char.isDigit)
  else none

/-- `re.match(r"(-?\d+)\((%r\d+)\)", cs)`: an anchored-at-start,
unanchored-at-end match (each digit class is followed by a non-digit
literal, so greedy matching without backtracking is exact). -/
def memMatchOffset (cs : List Char) : Option (Int × List Char) :=
  let cs1 := if cs.head? = some '-' then cs.tail else cs
  let ds := cs1.takeWhile Char.isDigit
  if ds.isEmpty then none
  else
    let rest := cs1.dropWhile Char.isDigit
    if rest.head? = some '(' then
      match matchRegTok rest.tail with
      | some (reg, rest2) =>
        if rest2.head? = some ')' then
          some ((if cs.head? = some '-' then -(decVal ds : Int) else (decVal ds : Int)), reg)
        else none
      | none => none
    else none

/-- `re.match(r"\((%r\d+)\)", cs)`: the zero-offset shorthand. -/
def memMatchNoOffset (cs : List Char) : Option (List Char) :=
  if cs.head? = some '(' then
    match matchRegTok cs.tail with
    | some (reg, rest2) => if rest2.head? = some ')' then some reg else none
    | none => none
  else none

/-- SMA.py `parse_memory_address`: strips every comma, then tries the two
regexes in order. -/
def parse_memory_address (s : List Char) : Except AsmErr (Int × List Char) :=
  let cs := s.filter (· ≠ ',')
  match memMatchOffset cs with
  | some (off, reg) => Except.ok (off, reg)
  | none =>
    match memMatchNoOffset cs with
    | some reg => Except.ok ((0 : Int), reg)
    | none => Except.error AsmErr.malformedOperand

/-! ## Assembler core (SMA.py `assemble_line`, lines 94-266)

The `current_address` parameter is kept although the source never reads
it (labels resolve to absolute addresses through the label table). -/

/-- SMA.py `assemble_line`: assembles one cleaned instruction line into a
binary word string.  The `Except.error AsmErr.emptyLine` branch models the
`IndexError`/`return None` path for a line with no token, which
`run_assembler` never feeds to it. -/
def assemble_line (line : List Char) (label_table : List (List Char × Nat))
    (currentAddress : Nat) : Except AsmErr (List Char) :=
  match splitMax1 line with
  | [] => Except.error AsmErr.emptyLine
  | op0 :: restParts =>
    let op := op0.map Char.toLower
    if op = "clr".data then Except.ok ("000000".data ++ List.replicate 26 '0')
    else if op = "end".data then Except.ok (List.replicate 32 '1')
    else
      match alookup op opcodes with
      | none => Except.error AsmErr.unknownInstruction
      | some opcode_bin =>
        let operands_str := match restParts with | [r] => r | _ => []
        let operands := (splitComma operands_str).map pyStrip
        if op ∈ ["cmb".data, "mns".data, "mlt".data, "dvd".data, "mdlo".data] then
          match operands with
          | [o1, o2, o3] => do
            let rs ← parse_register o1
            let rt ← parse_register o2
            let rd ← parse_register o3
            Except.ok (opcode_bin ++ rs ++ rt ++ rd ++ List.replicate 11 '0')
          | _ => Except.error AsmErr.operandCountMismatch
        else if op ∈ ["cmbi".data, "mnsi".data, "mlti".data, "dvdi".data] then
          match operands with
          | [o1, o2, o3] => do
            let rs ← parse_register o1
            let imm ← parse_immediate o2 15
            let rd ← parse_register o3
            Except.ok (opcode_bin ++ rs ++ imm ++ rd)
          | _ => Except.error AsmErr.operandCountMismatch
        else if op = "ldwd".data then
          match operands with
          | [o1, o2] => do
            let offReg ← parse_memory_address o1
            let rt ← parse_register o2
            let rs ← parse_register offReg.2
            let offset_bin ← parse_immediate (intToDecChars offReg.1) 16
            Except.ok (opcode_bin ++ rs ++ rt ++ offset_bin)
          | _ => Except.error AsmErr.operandCountMismatch
        else if op = "srwd".data then
          match operands with
          | [o1, o2] => do
            let rt ← parse_register o1
            let offReg ← parse_memory_address o2
            let rs ← parse_register offReg.2
            let offset_bin ← parse_immediate (intToDecChars offReg.1) 16
            Except.ok (opcode_bin ++ rs ++ rt ++ offset_bin)
          | _ => Except.error AsmErr.operandCountMismatch
        else if op = "jmp".data then
          match operands with
          | [o1] =>
            match alookup o1 label_table with
            | none => Except.error AsmErr.undefinedLabel
            | some address => Except.ok (opcode_bin ++ pyFormatB address 26)
          | _ => Except.error AsmErr.operandCountMismatch
        else if op = "pint".data then
          match operands with
          | [o1] => do
            let rs ← parse_register o1
            Except.ok (opcode_bin ++ rs ++ List.replicate 21 '0')
          | _ => Except.error AsmErr.operandCountMismatch
        else if op = "pstr".data then
          match operands with
          | [o1] => do
            let offReg ← parse_memory_address o1
            let rs ← parse_register offReg.2
            let offset_bin ← parse_immediate (intToDecChars offReg.1) 21
            Except.ok (opcode_bin ++ offset_bin ++ rs)
          | _ => Except.error AsmErr.operandCountMismatch
        else if op = "for".data then
          match operands with
          | [o1, o2] => do
            let rs ← parse_register o1
            match alookup o2 label_table with
            | none => Except.error AsmErr.undefinedLabel
            | some address => Except.ok (opcode_bin ++ rs ++ pyFormatB address 21)
          | _ => Except.error AsmErr.operandCountMismatch
        else if op = "sqrt".data then
          match operands with
          | [o1, o2] => do
            let rs ← parse_register o1
            let rd ← parse_register o2
            Except.ok (opcode_bin ++ rs ++ rd ++ List.replicate 16 '0')
          | _ => Except.error AsmErr.operandCountMismatch
        else if op = "sqr".data then
          match operands with
          | [o1, o2] => do
            let rs ← parse_register o1
            let rd ← parse_register o2
            Except.ok (opcode_bin ++ rs ++ rd ++ List.replicate 16 '0')
          | _ => Except.error AsmErr.operandCountMismatch
        else if op ∈ ["ife".data, "ifne".data] then
          match operands with
          | [o1, o2, o3] => do
            let rs ← parse_register o1
            let rt ← parse_register o2
            match alookup o3 label_table with
            | none => Except.error AsmErr.undefinedLabel
            | some address => Except.ok (opcode_bin ++ rs ++ rt ++ pyFormatB address 16)
          | _ => Except.error AsmErr.operandCountMismatch
        else if op = "ldad".data then
          match operands with
          | [o1, o2] => do
            let rd ← parse_register o2
            match alookup o1 label_table with
            | none => Except.error AsmErr.undefinedLabel
            | some address => Except.ok (opcode_bin ++ pyFormatB address 21 ++ rd)
          | _ => Except.error AsmErr.operandCountMismatch
        else if op = "ldim".data then
          match operands with
          | [o1, o2] => do
            let imm ← parse_immediate o1 21
            let rd ← parse_register o2
            Except.ok (opcode_bin ++ imm ++ rd)
          | _ => Except.error AsmErr.operandCountMismatch
        else Except.error AsmErr.unknownInstruction

/-! ## Two-pass driver (SMA.py `run_assembler`, lines 268-380)

File I/O and debug printing are stripped; the text already read from the
input file is the `lines` argument, and the output written on success is
the returned word list.  An `Except.error` models `sys.exit(1)` before
anything is written to the output artifact. -/

/-- Identifier characters of the label regex `[a-zA-Z0-9_]`. -/
def isIdentChar (c : Char) : Bool := c.isAlpha || c.isDigit || c = '_'

/-- Leading identifier characters `[a-zA-Z_]`. -/
def isIdentStart (c : Char) : Bool := c.isAlpha || c = '_'

/-- `re.match(r"^([a-zA-Z_][a-zA-Z0-9_]*):$", cs)`: the label-definition
line test of Pass 1; returns the bound identifier. -/
def lineLabel? (cs : List Char) : Option (List Char) :=
  if cs.getLast? = some ':' then
    match cs.dropLast with
    | [] => none
    | c :: t => if isIdentStart c && t.all isIdentChar then some (c :: t) else none
  else none

/-- Comment stripping plus whitespace stripping of Pass 1
(`line.split('#')[0]` then `.strip()`). -/
def cleanLine (cs : List Char) : List Char := pyStrip (cs.takeWhile (· ≠ '#'))

/-- State threaded through Pass 1: the label table, the cleaned
instruction records (text and address; the source also keeps the original
line number, used only for error messages), and the address counter. -/
structure P1State where
  table : List (List Char × Nat)
  cleaned : List (List Char × Nat)
  addr : Nat
  deriving Repr

/-- Pass 1 of SMA.py `run_assembler` (lines 275-335). -/
def pass1Aux : List (List Char) → P1State → Except AsmErr P1State
  | [], st => Except.ok st
  | l :: ls, st =>
    let s := cleanLine l
    if s.isEmpty then pass1Aux ls st
    else
      match lineLabel? s with
      | some label =>
        match alookup label st.table with
        | some _ => Except.error AsmErr.duplicateLabel
        | none => pass1Aux ls { st with table := st.table ++ [(label, st.addr)] }
      | none => pass1Aux ls { st with cleaned := st.cleaned ++ [(s, st.addr)], addr := st.addr + 1 }

/-- Pass 1 from the initial empty state. -/
def pass1 (lines : List (List Char)) : Except AsmErr P1State :=
  pass1Aux lines { table := [], cleaned := [], addr := 0 }

/-- Pass 2 of SMA.py `run_assembler` (lines 337-364), including the fatal
32-bit width assertion (line 355). -/
def pass2 (table : List (List Char × Nat)) :
    List (List Char × Nat) → Except AsmErr (List (List Char))
  | [] => Except.ok []
  | (line, addr) :: rest => do
    let w ← assemble_line line table addr
    if w.length ≠ 32 then Except.error AsmErr.encodingWidthError
    else do
      let ws ← pass2 table rest
      Except.ok (w :: ws)

/-- SMA.py `run_assembler` minus file plumbing: `Except.ok ws` means the
run succeeded and wrote exactly the words `ws`; `Except.error e` means the
run aborted via `sys.exit(1)` with nothing written. -/
def run_assembler (lines : List (List Char)) : Except AsmErr (List (List Char)) := do
  let st ← pass1 lines
  pass2 st.table st.cleaned

/-! ## Disassembler (SMD.py) -/

/-- SMD.py `get_register_name`. -/
def get_register_name (reg_bin : List Char) : List Char :=
  (alookup reg_bin registers_to_names).getD ("INVALID(".data ++ reg_bin ++ ")".data)

/-- The inline marker for a word of invalid length
(SMD.py `disassemble_instruction` line 70). -/
def errInvalidLength (bs : List Char) (address : Nat) : List Char :=
  "; Error: Invalid instruction length (".data ++ decChars bs.length ++
    " bits) at address ".data ++ decChars address ++ ": ".data ++ bs

/-- The inline marker for an unknown opcode (SMD.py line 87). -/
def errUnknownOpcode (opcode_bin : List Char) (address : Nat) (bs : List Char) : List Char :=
  "; Error: Unknown opcode ".data ++ opcode_bin ++ " at address ".data ++
    decChars address ++ ": ".data ++ bs

/-- The fallback marker of the final `else` (SMD.py line 226). -/
def errNotImplemented (opcode_bin mnemonic : List Char) : List Char :=
  "; Error: Disassembly logic not implemented for opcode ".data ++ opcode_bin ++
    " (".data ++ mnemonic ++ ")".data

/-- The per-mnemonic decode dispatch of SMD.py `disassemble_instruction`
(lines 86-226), reached after the two full-width special cases.
`Except.error AsmErr.valueError` models the `ValueError` that `int(s, 2)`
raises inside a branch; it propagates out of `run_disassembler`'s loop
into its `except Exception` handler. -/
def disasmGeneric (bs : List Char) (address : Nat) (opcode_bin : List Char) :
    Except AsmErr (List Char) :=
  match alookup opcode_bin opcodes_to_mnemonics with
  | none => Except.ok (errUnknownOpcode opcode_bin address bs)
  | some mnemonic =>
    let slice := fun (a b : Nat) => ((bs.drop a).take (b - a))
    if mnemonic ∈ ["cmb".data, "mns".data, "mlt".data, "dvd".data, "mdlo".data] then
      Except.ok (mnemonic ++ ' ' :: get_register_name (slice 6 11) ++ ',' :: ' ' ::
        get_register_name (slice 11 16) ++ ',' :: ' ' :: get_register_name (slice 16 21))
    else if mnemonic ∈ ["cmbi".data, "mnsi".data, "mlti".data, "dvdi".data] then
      match bin_to_int? (slice 11 26) with
      | none => Except.error AsmErr.valueError
      | some v =>
        Except.ok (mnemonic ++ ' ' :: get_register_name (slice 6 11) ++ ',' :: ' ' ::
          intToDecChars v ++ ',' :: ' ' :: get_register_name (slice 26 31))
    else if mnemonic = "ldwd".data then
      match bin_to_signed_int? (slice 16 32) with
      | none => Except.error AsmErr.valueError
      | some v =>
        Except.ok (mnemonic ++ ' ' :: intToDecChars v ++
          '(' :: get_register_name (slice 6 11) ++ ')' :: ',' :: ' ' ::
          get_register_name (slice 11 16))
    else if mnemonic = "srwd".data then
      match bin_to_signed_int? (slice 16 32) with
      | none => Except.error AsmErr.valueError
      | some v =>
        Except.ok (mnemonic ++ ' ' :: get_register_name (slice 11 16) ++ ',' :: ' ' ::
          intToDecChars v ++ '(' :: get_register_name (slice 6 11) ++ [')'])
    else if mnemonic = "jmp".data then
      match bin_to_int? (slice 6 32) with
      | none => Except.error AsmErr.valueError
      | some v => Except.ok (mnemonic ++ ' ' :: intToDecChars v)
    else if mnemonic = "pint".data then
      Except.ok (mnemonic ++ ' ' :: get_register_name (slice 6 11))
    else if mnemonic = "pstr".data then
      match bin_to_signed_int? (slice 6 27) with
      | none => Except.error AsmErr.valueError
      | some v =>
        Except.ok (mnemonic ++ ' ' :: intToDecChars v ++
          '(' :: get_register_name (slice 27 32) ++ [')'])
    else if mnemonic = "for".data then
      match bin_to_int? (slice 11 32) with
      | none => Except.error AsmErr.valueError
      | some v =>
        Except.ok (mnemonic ++ ' ' :: get_register_name (slice 6 11) ++ ',' :: ' ' ::
          intToDecChars v)
    else if mnemonic ∈ ["sqrt".data, "sqr".data] then
      Except.ok (mnemonic ++ ' ' :: get_register_name (slice 6 11) ++ ',' :: ' ' ::
        get_register_name (slice 11 16))
    else if mnemonic ∈ ["ife".data, "ifne".data] then
      match bin_to_int? (slice 16 32) with
      | none => Except.error AsmErr.valueError
      | some v =>
        Except.ok (mnemonic ++ ' ' :: get_register_name (slice 6 11) ++ ',' :: ' ' ::
          get_register_name (slice 11 16) ++ ',' :: ' ' :: intToDecChars v)
    else if mnemonic = "ldad".data then
      match bin_to_int? (slice 6 27) with
      | none => Except.error AsmErr.valueError
      | some v =>
        Except.ok (mnemonic ++ ' ' :: intToDecChars v ++ ',' :: ' ' ::
          get_register_name (slice 27 32))
    else if mnemonic = "ldim".data then
      match bin_to_signed_int? (slice 6 27) with
      | none => Except.error AsmErr.valueError
      | some v =>
        Except.ok (mnemonic ++ ' ' :: intToDecChars v ++ ',' :: ' ' ::
          get_register_name (slice 27 32))
    else Except.ok (errNotImplemented opcode_bin mnemonic)

/-- SMD.py `disassemble_instruction` (lines 63-226).  The all-zeros word
checks its opcode field again exactly as the source does; any other word
falls through to the generic dispatch.  `Except.ok` is the returned
text (markers included); `Except.error` is a propagating `ValueError`. -/
def disassemble_instruction (bs : List Char) (address : Nat) :
    Except AsmErr (List Char) :=
  if bs.length ≠ 32 then Except.ok (errInvalidLength bs address)
  else
    let opcode_bin := (bs.drop 0).take 6
    if bs = List.replicate 32 '1' then Except.ok "end".data
    else if bs = List.replicate 32 '0' ∧ opcode_bin = "000000".data then Except.ok "clr".data
    else disasmGeneric bs address opcode_bin

/-- The run-level marker appended for a word of invalid length
(SMD.py `run_disassembler` line 248). -/
def errRunLength (address : Nat) : List Char :=
  "; Error: Invalid length at address ".data ++ decChars address

/-- The loop body of SMD.py `run_disassembler` (lines 240-252): `address`
is the `enumerate` index (empty lines consume an index but emit nothing).
An exception from any line aborts the whole loop; the collected lines are
only written after the loop finishes, so an aborted run writes nothing. -/
def runDisAux : Nat → List (List Char) → Except AsmErr (List (List Char))
  | _, [] => Except.ok []
  | address, l :: ls =>
    let s := pyStrip l
    if s.isEmpty then runDisAux (address + 1) ls
    else if s.length ≠ 32 then do
      let rest ← runDisAux (address + 1) ls
      Except.ok (errRunLength address :: rest)
    else do
      let w ← disassemble_instruction s address
      let rest ← runDisAux (address + 1) ls
      Except.ok (w :: rest)

/-- SMD.py `run_disassembler` minus file plumbing: `Except.ok ws` means
the run succeeded and wrote exactly the lines `ws`; `Except.error` means
a `ValueError` reached the `except Exception` handler (line 257) and the
run exited via `sys.exit(1)` before the output file was written. -/
def run_disassembler (lines : List (List Char)) : Except AsmErr (List (List Char)) :=
  runDisAux 0 lines

/-! ## Spec-side shape predicates for the memory-operand syntax (§4.2)

These are written from the specification's words — the syntax
`<signed-integer>(<register>)` and the shorthand `(<register>)` — to be
compared against `parse_memory_address`. -/

/-- The text of a signed decimal integer: optional minus sign, then at
least one digit. -/
def signedIntStr (cs : List Char) : Bool :=
  let body := if cs.head? = some '-' then cs.tail else cs
  !body.isEmpty && body.all Char.isDigit

/-- The register token of the memory-operand syntax: `%r` then digits. -/
def regTokenStr (cs : List Char) : Bool :=
  decide (cs.take 2 = ['%', 'r']) && !(cs.drop 2).isEmpty && (cs.drop 2).all Char.isDigit

/-- The paren-register part `(<register>)` followed by anything. -/
def parenRegStart (cs : List Char) : Bool :=
  decide (cs.head? = some '(') &&
    (List.range (cs.tail.length + 1)).any (fun j =>
      regTokenStr (cs.tail.take j) && decide ((cs.tail.drop j).head? = some ')'))

/-- The paren-register part `(<register>)` with nothing after it. -/
def parenRegExact (cs : List Char) : Bool :=
  decide (cs.head? = some '(') && !cs.tail.isEmpty &&
    regTokenStr cs.tail.dropLast && decide (cs.tail.getLast? = some ')')

/-- The spec's memory-operand shape, exactly: the whole string is
`<signed-integer>(<register>)` or `(<register>)`. -/
def memOperandShape (cs : List Char) : Bool :=
  ((List.range (cs.length + 1)).any (fun i =>
    signedIntStr (cs.take i) && parenRegExact (cs.drop i))) ||
  parenRegExact cs

/-- The shape actually enforced by the unanchored `re.match`: a prefix of
the string is `<signed-integer>(<register>)` or `(<register>)`; the rest
is arbitrary. -/
def memOperandStart (cs : List Char) : Bool :=
  ((List.range (cs.length + 1)).any (fun i =>
    signedIntStr (cs.take i) && parenRegStart (cs.drop i))) ||
  parenRegStart cs

/-! ## Canonical instructions (for the round-trip property, §8)

An abstract instruction together with its canonical source rendering.
Label operands carry both the label text used in the source rendering and
the address it resolves to; validity ties the two through the label
table. -/

/-- The register-register arithmetic mnemonics. -/
inductive RMnem where
  | cmb | mns | mlt | dvd | mdlo
  deriving DecidableEq, Repr

def RMnem.text : RMnem → List Char
  | .cmb => "cmb".data
  | .mns => "mns".data
  | .mlt => "mlt".data
  | .dvd => "dvd".data
  | .mdlo => "mdlo".data

/-- The square-root / square mnemonics. -/
inductive SqMnem where
  | sqrt | sqr
  deriving DecidableEq, Repr

def SqMnem.text : SqMnem → List Char
  | .sqrt => "sqrt".data
  | .sqr => "sqr".data

/-- The equal / not-equal branch mnemonics. -/
inductive BrMnem where
  | ife | ifne
  deriving DecidableEq, Repr

def BrMnem.text : BrMnem → List Char
  | .ife => "ife".data
  | .ifne => "ifne".data

/-- A syntactically valid instruction of the ISA.  Label operands are a
pair of the label text and the address it resolves to.  The
register-immediate arithmetic group (`cmbi`, `mnsi`, `mlti`, `dvdi`) is a
separate constructor since its encoding is not 32 bits wide. -/
inductive Instr where
  | rtype (m : RMnem) (rs rt rd : Fin 32)
  | iarith (m : List Char) (rs : Fin 32) (imm : Int) (rd : Fin 32)
  | ldwd (off : Int) (rs rt : Fin 32)
  | srwd (rt : Fin 32) (off : Int) (rs : Fin 32)
  | jmp (lbl : List Char) (a : Nat)
  | pint (rs : Fin 32)
  | pstr (off : Int) (rs : Fin 32)
  | forL (rs : Fin 32) (lbl : List Char) (a : Nat)
  | sq (m : SqMnem) (rs rd : Fin 32)
  | br (m : BrMnem) (rs rt : Fin 32) (lbl : List Char) (a : Nat)
  | ldad (lbl : List Char) (a : Nat) (rd : Fin 32)
  | ldim (imm : Int) (rd : Fin 32)
  | clr
  | endI

/-- The canonical text `%rN` of a register. -/
def regName (n : Fin 32) : List Char := '%' :: 'r' :: decChars n

/-- The canonical text `off(%rN)` of a memory operand. -/
def memText (off : Int) (n : Fin 32) : List Char :=
  intToDecChars off ++ '(' :: (regName n ++ [')'])

/-- The canonical source rendering of an instruction (labels by name). -/
def Instr.render : Instr → List Char
  | .rtype m rs rt rd =>
    m.text ++ ' ' :: (regName rs ++ ',' :: ' ' :: (regName rt ++ ',' :: ' ' :: regName rd))
  | .iarith m rs imm rd =>
    m ++ ' ' :: (regName rs ++ ',' :: ' ' :: (intToDecChars imm ++ ',' :: ' ' :: regName rd))
  | .ldwd off rs rt => "ldwd ".data ++ memText off rs ++ ',' :: ' ' :: regName rt
  | .srwd rt off rs => "srwd ".data ++ regName rt ++ ',' :: ' ' :: memText off rs
  | .jmp lbl _ => "jmp ".data ++ lbl
  | .pint rs => "pint ".data ++ regName rs
  | .pstr off rs => "pstr ".data ++ memText off rs
  | .forL rs lbl _ => "for ".data ++ regName rs ++ ',' :: ' ' :: lbl
  | .sq m rs rd => m.text ++ ' ' :: (regName rs ++ ',' :: ' ' :: regName rd)
  | .br m rs rt lbl _ =>
    m.text ++ ' ' :: (regName rs ++ ',' :: ' ' :: (regName rt ++ ',' :: ' ' :: lbl))
  | .ldad lbl _ rd => "ldad ".data ++ lbl ++ ',' :: ' ' :: regName rd
  | .ldim imm rd => "ldim ".data ++ intToDecChars imm ++ ',' :: ' ' :: regName rd
  | .clr => "clr".data
  | .endI => "end".data

/-- The canonical rendering with label operands replaced by their resolved
numeric addresses — the disassembler's output format (§4.4). -/
def Instr.renderResolved : Instr → List Char
  | .jmp _ a => "jmp ".data ++ decChars a
  | .forL rs _ a => "for ".data ++ regName rs ++ ',' :: ' ' :: decChars a
  | .br m rs rt _ a =>
    m.text ++ ' ' :: (regName rs ++ ',' :: ' ' :: (regName rt ++ ',' :: ' ' :: decChars a))
  | .ldad _ a rd => "ldad ".data ++ decChars a ++ ',' :: ' ' :: regName rd
  | i => i.render

/-- A plain identifier usable as a label operand. -/
def identOk (l : List Char) : Prop := l ≠ [] ∧ l.all isIdentChar = true

instance (l : List Char) : Decidable (identOk l) := by
  unfold identOk; infer_instance

/-- Validity of an instruction with respect to a label table: label
operands resolve through the table to an address that fits its field, and
signed immediate/offset operands lie in the two's-complement range of
their field. -/
def Instr.valid (T : List (List Char × Nat)) : Instr → Prop
  | .rtype _ _ _ _ => True
  | .iarith _ _ _ _ => False
  | .ldwd off _ _ => -((2 : Int) ^ 15) ≤ off ∧ off < (2 : Int) ^ 15
  | .srwd _ off _ => -((2 : Int) ^ 15) ≤ off ∧ off < (2 : Int) ^ 15
  | .jmp lbl a => identOk lbl ∧ alookup lbl T = some a ∧ a < 2 ^ 26
  | .pint _ => True
  | .pstr off _ => -((2 : Int) ^ 20) ≤ off ∧ off < (2 : Int) ^ 20
  | .forL _ lbl a => identOk lbl ∧ alookup lbl T = some a ∧ a < 2 ^ 21
  | .sq _ _ _ => True
  | .br _ _ _ lbl a => identOk lbl ∧ alookup lbl T = some a ∧ a < 2 ^ 16
  | .ldad lbl a _ => identOk lbl ∧ alookup lbl T = some a ∧ a < 2 ^ 21
  | .ldim imm _ => -((2 : Int) ^ 20) ≤ imm ∧ imm < (2 : Int) ^ 20
  | .clr => True
  | .endI => True

instance (T : List (List Char × Nat)) (i : Instr) : Decidable (i.valid T) := by
  cases i <;> (unfold Instr.valid; infer_instance)

def RMnem.opcode : RMnem → List Char
  | .cmb => "000001".data
  | .mns => "000010".data
  | .mlt => "000011".data
  | .dvd => "000100".data
  | .mdlo => "010000".data

def SqMnem.opcode : SqMnem → List Char
  | .sqrt => "001111".data
  | .sqr => "010001".data

def BrMnem.opcode : BrMnem → List Char
  | .ife => "010010".data
  | .ifne => "010011".data

/-- The two's-complement field encoding produced by `parse_immediate` for
an in-range value. -/
def twosComp (v : Int) (w : Nat) : List Char := pyFormatB ((v % ((2 : Int) ^ w)).toNat) w

/-- The 32-bit word that `assemble_line` produces for a valid
instruction, field by field in the documented order. -/
def Instr.encodeWord : Instr → List Char
  | .rtype m rs rt rd =>
    m.opcode ++ pyFormatB rs 5 ++ pyFormatB rt 5 ++ pyFormatB rd 5 ++ List.replicate 11 '0'
  | .iarith _ rs imm rd => pyFormatB rs 5 ++ twosComp imm 15 ++ pyFormatB rd 5
  | .ldwd off rs rt =>
    "000110".data ++ pyFormatB rs 5 ++ pyFormatB rt 5 ++ twosComp off 16
  | .srwd rt off rs =>
    "000111".data ++ pyFormatB rs 5 ++ pyFormatB rt 5 ++ twosComp off 16
  | .jmp _ a => "001000".data ++ pyFormatB a 26
  | .pint rs => "001001".data ++ pyFormatB rs 5 ++ List.replicate 21 '0'
  | .pstr off rs => "001010".data ++ twosComp off 21 ++ pyFormatB rs 5
  | .forL rs _ a => "001110".data ++ pyFormatB rs 5 ++ pyFormatB a 21
  | .sq m rs rd => m.opcode ++ pyFormatB rs 5 ++ pyFormatB rd 5 ++ List.replicate 16 '0'
  | .br m rs rt _ a => m.opcode ++ pyFormatB rs 5 ++ pyFormatB rt 5 ++ pyFormatB a 16
  | .ldad _ a rd => "010100".data ++ pyFormatB a 21 ++ pyFormatB rd 5
  | .ldim imm rd => "010101".data ++ twosComp imm 21 ++ pyFormatB rd 5
  | .clr => "000000".data ++ List.replicate 26 '0'
  | .endI => List.replicate 32 '1'

/-! ## Specification views of Pass 1 (for label-resolution claims)

These describe, from the spec's words (§4.3), what the Label Table built
by Pass 1 should contain: each label-definition line binds its identifier
to the number of instructions emitted before that line. -/

/-- The identifiers bound by label-definition lines, in source order. -/
def labelsOf (lines : List (List Char)) : List (List Char) :=
  lines.filterMap (fun l => lineLabel? (cleanLine l))

/-- The number of instruction lines (cleaned non-empty, not a label
definition) in `lines` — the address counter after processing them. -/
def instrCount (lines : List (List Char)) : Nat :=
  (lines.filter (fun l => !(cleanLine l).isEmpty && (lineLabel? (cleanLine l)).isNone)).length

/-- The label bindings produced from `lines` when the address counter
starts at `base`. -/
def bindingsFrom (base : Nat) : List (List Char) → List (List Char × Nat)
  | [] => []
  | l :: ls =>
    let s := cleanLine l
    if s.isEmpty then bindingsFrom base ls
    else
      match lineLabel? s with
      | some lab => (lab, base) :: bindingsFrom base ls
      | none => bindingsFrom (base + 1) ls

/-! # Theorems

Helper lemmas on the numeral codecs, then one theorem per claim. -/

theorem isDigit_ne_minus {c : Char} (h : c.isDigit = true) : c ≠ '-' := by
  rintro rfl; exact absurd h (by decide)

theorem isDigit_ne_comma {c : Char} (h : c.isDigit = true) : c ≠ ',' := by
  rintro rfl; exact absurd h (by decide)

theorem isDigit_not_space {c : Char} (h : c.isDigit = true) : pyIsSpace c = false := by
  have n1 : c ≠ ' ' := by rintro rfl; exact absurd h (by decide)
  have n2 : c ≠ '\t' := by rintro rfl; exact absurd h (by decide)
  have n3 : c ≠ '\n' := by rintro rfl; exact absurd h (by decide)
  have n4 : c ≠ '\x0d' := by rintro rfl; exact absurd h (by decide)
  have n5 : c ≠ '\x0b' := by rintro rfl; exact absurd h (by decide)
  have n6 : c ≠ '\x0c' := by rintro rfl; exact absurd h (by decide)
  simp [pyIsSpace, n1, n2, n3, n4, n5, n6]

theorem isDigit_ne_lparen {c : Char} (h : c.isDigit = true) : c ≠ '(' := by
  rintro rfl; exact absurd h (by decide)

theorem isDigit_ne_rparen {c : Char} (h : c.isDigit = true) : c ≠ ')' := by
  rintro rfl; exact absurd h (by decide)

theorem isDigit_ne_hash {c : Char} (h : c.isDigit = true) : c ≠ '#' := by
  rintro rfl; exact absurd h (by decide)

theorem toBaseLE_ne_nil {b n : Nat} (hn : 0 < n) : toBaseLE b n ≠ [] := by
  match n, hn with
  | m + 1, _ => simp [toBaseLE, toBaseAux]

theorem decChars_ne_nil (n : Nat) : decChars n ≠ [] := by
  unfold decChars
  by_cases h : n = 0
  · simp [h]
  · simp only [h, if_false]
    intro hc
    have := toBaseLE_ne_nil (b := 10) (Nat.pos_of_ne_zero h)
    simp only [List.map_eq_nil, List.reverse_eq_nil_iff] at hc
    exact this hc

theorem decChars_all_digit {n : Nat} : ∀ c ∈ decChars n, c.isDigit = true := by
  intro c hc
  unfold decChars at hc
  by_cases h : n = 0
  · simp [h] at hc; subst hc; rfl
  · simp only [h, if_false, List.mem_map, List.mem_reverse] at hc
    obtain ⟨d, hd, rfl⟩ := hc
    exact digitChar_isDigit (toBaseLE_lt 10 (by norm_num) n d hd)

theorem foldl_congr_mem {α : Type} {l : List α} {f g : Nat → α → Nat}
    (h : ∀ a d, d ∈ l → f a d = g a d) : ∀ a, l.foldl f a = l.foldl g a := by
  induction l with
  | nil => intro a; rfl
  | cons x t ih =>
    intro a
    simp only [List.foldl_cons]
    rw [h a x (List.mem_cons_self x t)]
    exact ih (fun a d hd => h a d (List.mem_cons_of_mem x hd)) _

theorem foldr_mul_add (b : Nat) (l : List Nat) :
    l.foldr (fun x y => b * y + x) 0 = hornerLE b l := by
  induction l with
  | nil => rfl
  | cons d t ih => simp only [List.foldr_cons, hornerLE, ih]; omega

theorem foldl_reverse_horner {b : Nat} (hb : 2 ≤ b) (n : Nat) :
    (toBaseLE b n).reverse.foldl (fun acc d => b * acc + d) 0 = n := by
  rw [List.foldl_reverse]
  have : (toBaseLE b n).foldr (fun x y => b * y + x) 0 = hornerLE b (toBaseLE b n) :=
    foldr_mul_add b _
  rw [this, toBaseLE_eval b hb]

theorem decVal_decChars (n : Nat) : decVal (decChars n) = n := by
  unfold decVal decChars
  by_cases h : n = 0
  · subst h; decide
  · simp only [h, if_false]
    rw [List.foldl_map]
    have hc : ∀ (a d : Nat), d ∈ (toBaseLE 10 n).reverse →
        (fun acc c => 10 * acc + (c.toNat - 48)) a (digitChar d) =
        (fun acc d => 10 * acc + d) a d := by
      intro a d hd
      have hd10 : d < 10 := toBaseLE_lt 10 (by norm_num) n d (List.mem_reverse.mp hd)
      simp only [digitChar_toNat hd10]
      omega
    rw [foldl_congr_mem hc]
    exact foldl_reverse_horner (by norm_num) n

theorem intToDecChars_nonneg {v : Int} (h : 0 ≤ v) : intToDecChars v = decChars v.toNat := by
  unfold intToDecChars
  rw [if_neg (by omega)]

theorem intToDecChars_neg {v : Int} (h : v < 0) : intToDecChars v = '-' :: decChars (-v).toNat := by
  unfold intToDecChars
  rw [if_pos h]

theorem parseIntChars_intToDecChars (v : Int) : parseIntChars (intToDecChars v) = some v := by
  by_cases h : v < 0
  · rw [intToDecChars_neg h]
    simp only [parseIntChars, if_true]
    have h1 : (decChars (-v).toNat).isEmpty = false := by
      cases he : (decChars (-v).toNat).isEmpty
      · rfl
      · exact absurd (List.isEmpty_iff.mp he) (decChars_ne_nil _)
    have h2 : (decChars (-v).toNat).all Char.isDigit = true := by
      rw [List.all_eq_true]; exact fun c hc => decChars_all_digit c hc
    rw [h1, h2, if_pos (by decide), decVal_decChars]
    congr 1
    omega
  · rw [intToDecChars_nonneg (by omega)]
    have hne := decChars_ne_nil v.toNat
    rcases hd : decChars v.toNat with _ | ⟨c, t⟩
    · exact absurd hd hne
    · have hcd : c.isDigit = true := decChars_all_digit c (by rw [hd]; exact List.mem_cons_self c t)
      simp only [parseIntChars]
      rw [if_neg (isDigit_ne_minus hcd)]
      have h2 : (c :: t).all Char.isDigit = true := by
        rw [List.all_eq_true]
        intro x hx
        exact decChars_all_digit x (by rw [hd]; exact hx)
      rw [h2]
      simp only [if_true]
      rw [← hd, decVal_decChars]
      congr 1
      omega

theorem filter_comma_eq_self {l : List Char} (h : ∀ c ∈ l, c ≠ ',') :
    l.filter (· ≠ ',') = l := by
  rw [List.filter_eq_self]
  intro a ha
  simpa using h a ha

theorem intToDecChars_no_comma (v : Int) : ∀ c ∈ intToDecChars v, c ≠ ',' := by
  intro c hc
  unfold intToDecChars at hc
  by_cases h : v < 0
  · rw [if_pos h] at hc
    rcases List.mem_cons.mp hc with rfl | hc'
    · decide
    · exact isDigit_ne_comma (decChars_all_digit c hc')
  · rw [if_neg h] at hc
    exact isDigit_ne_comma (decChars_all_digit c hc)

theorem parse_immediate_intToDecChars (v : Int) (bits : Nat) :
    parse_immediate (intToDecChars v) bits = encode_immediate v bits := by
  unfold parse_immediate
  rw [filter_comma_eq_self (intToDecChars_no_comma v), parseIntChars_intToDecChars]

theorem pyFormatB_ds_length {n w : Nat} (hw : 0 < w) (h : n < 2 ^ w) :
    (if n = 0 then ['0'] else ((toBaseLE 2 n).reverse.map bitChar)).length ≤ w := by
  by_cases h0 : n = 0
  · simp [h0]; omega
  · simp only [h0, if_false, List.length_map, List.length_reverse]
    exact toBaseLE_length 2 (by norm_num) n w h

theorem pyFormatB_length {n w : Nat} (hw : 0 < w) (h : n < 2 ^ w) :
    (pyFormatB n w).length = w := by
  have hds := pyFormatB_ds_length hw h
  unfold pyFormatB
  rw [List.length_append, List.length_replicate]
  omega

theorem foldl_bin_replicate (k : Nat) :
    (List.replicate k '0').foldl (fun a c => 2 * a + (if c = '1' then 1 else 0)) 0 = 0 := by
  induction k with
  | zero => rfl
  | succ m ih => simpa [List.replicate_succ] using ih

theorem bin_to_int_pyFormatB (n w : Nat) : bin_to_int (pyFormatB n w) = n := by
  unfold bin_to_int pyFormatB
  rw [List.foldl_append, foldl_bin_replicate]
  by_cases h0 : n = 0
  · subst h0; rfl
  · simp only [h0, if_false]
    rw [List.foldl_map]
    have hc : ∀ (a : Nat) (d : Nat), d ∈ (toBaseLE 2 n).reverse →
        (fun acc c => 2 * acc + (if c = '1' then 1 else 0)) a (bitChar d) =
        (fun acc d => 2 * acc + d) a d := by
      intro a d hd
      have hd2 : d < 2 := toBaseLE_lt 2 (by norm_num) n d (List.mem_reverse.mp hd)
      interval_cases d <;> rfl
    rw [foldl_congr_mem hc]
    exact foldl_reverse_horner (by norm_num) n

theorem pyFormatB_ne_nil (n w : Nat) : pyFormatB n w ≠ [] := by
  unfold pyFormatB
  intro hc
  rcases List.append_eq_nil.mp hc with ⟨_, h2⟩
  by_cases h0 : n = 0
  · simp [h0] at h2
  · simp only [h0, if_false, List.map_eq_nil_iff, List.reverse_eq_nil_iff] at h2
    exact toBaseLE_ne_nil (Nat.pos_of_ne_zero h0) h2

theorem bin_to_signed_int_low {n w : Nat} (hw : 0 < w) (h : n < 2 ^ (w - 1)) :
    bin_to_signed_int (pyFormatB n w) = (n : Int) := by
  have hlt : n < 2 ^ w := lt_of_lt_of_le h (Nat.pow_le_pow_right (by norm_num) (by omega))
  unfold bin_to_signed_int
  rw [if_neg (pyFormatB_ne_nil n w)]
  simp only [bin_to_int_pyFormatB, pyFormatB_length hw hlt]
  rw [if_neg]
  rw [Nat.testBit_lt_two_pow h]
  simp

theorem bin_to_signed_int_high {n w : Nat} (hw : 0 < w) (h1 : 2 ^ (w - 1) ≤ n)
    (h2 : n < 2 ^ w) : bin_to_signed_int (pyFormatB n w) = (n : Int) - 2 ^ w := by
  unfold bin_to_signed_int
  rw [if_neg (pyFormatB_ne_nil n w)]
  simp only [bin_to_int_pyFormatB, pyFormatB_length hw h2]
  rw [if_pos]
  have hsplit : 2 ^ w = 2 * 2 ^ (w - 1) := by
    rw [← pow_succ']
    congr 1
    omega
  rw [Nat.testBit_to_div_mod]
  have hdiv : n / 2 ^ (w - 1) = 1 := Nat.div_eq_of_lt_le (by omega) (by omega)
  rw [hdiv]
  decide

theorem int_emod_two_pow_nonneg {v : Int} {w : Nat} (h0 : 0 ≤ v) (h : v < (2 : Int) ^ w) :
    v % ((2 : Int) ^ w) = v :=
  Int.emod_eq_of_lt h0 h

theorem int_emod_two_pow_neg {v : Int} {w : Nat} (h0 : v < 0) (h : -((2 : Int) ^ w) ≤ v) :
    v % ((2 : Int) ^ w) = v + (2 : Int) ^ w := by
  have key : (v + (2 : Int) ^ w * 1) % ((2 : Int) ^ w) = v % ((2 : Int) ^ w) :=
    Int.add_mul_emod_self_left v ((2 : Int) ^ w) 1
  rw [mul_one] at key
  rw [← key]
  exact Int.emod_eq_of_lt (by omega) (by omega)

/-- Two's-complement round-trip: encoding a signed value in range and
reading it back with `bin_to_signed_int` is the identity. -/
theorem bin_to_signed_int_twos {v : Int} {w : Nat} (hw : 0 < w)
    (h1 : -((2 : Int) ^ (w - 1)) ≤ v) (h2 : v < (2 : Int) ^ (w - 1)) :
    bin_to_signed_int (pyFormatB ((v % ((2 : Int) ^ w)).toNat) w) = v := by
  have hhalf : (2 : Int) ^ (w - 1) ≤ (2 : Int) ^ w := pow_le_pow_right (by norm_num) (by omega)
  have hsplit : (2 : Int) ^ w = 2 * (2 : Int) ^ (w - 1) := by
    rw [← pow_succ']
    congr 1
    omega
  have c1 : ((2 ^ (w - 1) : Nat) : Int) = (2 : Int) ^ (w - 1) := by push_cast; ring
  have c2 : ((2 ^ w : Nat) : Int) = (2 : Int) ^ w := by push_cast; ring
  by_cases h0 : 0 ≤ v
  · rw [int_emod_two_pow_nonneg h0 (by omega)]
    have hv := Int.toNat_of_nonneg h0
    have hn : v.toNat < 2 ^ (w - 1) := by omega
    rw [bin_to_signed_int_low hw hn]
    omega
  · rw [int_emod_two_pow_neg (by omega) (by omega)]
    have hge : (0 : Int) ≤ v + (2 : Int) ^ w := by omega
    have hv := Int.toNat_of_nonneg hge
    have hn1 : 2 ^ (w - 1) ≤ (v + (2 : Int) ^ w).toNat := by omega
    have hn2 : (v + (2 : Int) ^ w).toNat < 2 ^ w := by omega
    rw [bin_to_signed_int_high hw hn1 hn2]
    omega

/-- `encode_immediate` succeeds on the whole accepted range
`[-2^(bits-1), 2^bits - 1]` and produces the `bits`-wide two's-complement
string (which for non-negative values is the plain binary encoding). -/
theorem encode_immediate_eq_ok {v : Int} {w : Nat} (hw : 0 < w)
    (h1 : -((2 : Int) ^ (w - 1)) ≤ v) (h2 : v ≤ (2 : Int) ^ w - 1) :
    encode_immediate v w = Except.ok (pyFormatB ((v % ((2 : Int) ^ w)).toNat) w) := by
  unfold encode_immediate
  simp only [hw, if_pos]
  by_cases h0 : v < 0
  · rw [if_pos h0, if_neg (by omega)]
  · rw [if_neg h0, if_neg (by omega), int_emod_two_pow_nonneg (by omega) (by omega)]

theorem encode_immediate_too_big {v : Int} {w : Nat} (hw : 0 < w)
    (h : (2 : Int) ^ w - 1 < v) :
    encode_immediate v w = Except.error AsmErr.immediateOutOfRange := by
  unfold encode_immediate
  simp only [hw, if_pos]
  have hv : ¬v < 0 := by
    have : (0 : Int) < (2 : Int) ^ w := by positivity
    omega
  rw [if_neg hv, if_pos h]

/-- The encoded field has exactly `bits` characters whenever the value is
in the accepted range. -/
theorem encoded_length {v : Int} {w : Nat} (hw : 0 < w) :
    (pyFormatB ((v % ((2 : Int) ^ w)).toNat) w).length = w := by
  have hpos : (0 : Int) < (2 : Int) ^ w := by positivity
  have hmod1 : 0 ≤ v % ((2 : Int) ^ w) := Int.emod_nonneg v (by omega)
  have hmod2 : v % ((2 : Int) ^ w) < (2 : Int) ^ w := Int.emod_lt_of_pos v hpos
  have c2 : ((2 ^ w : Nat) : Int) = (2 : Int) ^ w := by push_cast; ring
  exact pyFormatB_length hw (by omega)

/-- C3 helper: the claim's boundary values, stated through
`parse_immediate` on the decimal text of the value. -/
theorem parse_immediate_boundary (w : Nat) (hw : 0 < w) :
    (parse_immediate (intToDecChars ((2 : Int) ^ w - 1)) w).isOk = true ∧
    parse_immediate (intToDecChars ((2 : Int) ^ w)) w =
      Except.error AsmErr.immediateOutOfRange := by
  have ha : (0 : Int) < (2 : Int) ^ (w - 1) := by positivity
  have hb : (0 : Int) < (2 : Int) ^ w := by positivity
  constructor
  · rw [parse_immediate_intToDecChars,
      encode_immediate_eq_ok hw (by omega) (le_refl _)]
    rfl
  · rw [parse_immediate_intToDecChars, encode_immediate_too_big hw (by omega)]

/-- C3: for every field width w > 0, encoding the immediate value 2^w - 1
(the maximum representable unsigned value for w bits) succeeds, and
encoding the value 2^w (one above that maximum) fails with an
ImmediateOutOfRange error. -/
theorem immediate_range_boundary (w : Nat) (hw : 0 < w) :
    (parse_immediate (intToDecChars ((2 : Int) ^ w - 1)) w).isOk = true ∧
    parse_immediate (intToDecChars ((2 : Int) ^ w)) w =
      Except.error AsmErr.immediateOutOfRange :=
  parse_immediate_boundary w hw

/-- Witness for C3 at the concrete width w = 5. -/
theorem immediate_range_boundary_check :
    (parse_immediate (intToDecChars ((2 : Int) ^ 5 - 1)) 5).isOk = true ∧
    parse_immediate (intToDecChars ((2 : Int) ^ 5)) 5 =
      Except.error AsmErr.immediateOutOfRange :=
  immediate_range_boundary 5 (by decide)

/-- C2 (code bug): the register-immediate arithmetic instruction
`cmbi %r0, 0, %r1` is a valid instruction of the ISA, yet `assemble_line`
returns a 31-character encoding (opcode 6 + rs 5 + imm 15 + rd 5 bits),
so the run-level 32-bit width assertion fires and the whole run fails
with the internal `EncodingWidthError` — contradicting the claim that the
width-assertion branch is unreachable on correct input. -/
theorem cmbi_width_violation :
    (assemble_line "cmbi %r0, 0, %r1".data [] 0).map List.length = Except.ok 31 ∧
    run_assembler ["cmbi %r0, 0, %r1".data] = Except.error AsmErr.encodingWidthError :=
  ⟨rfl, rfl⟩

/-- C7: `ldim 10, %r1` assembles to opcode `010101`, then the 21-bit
two's-complement encoding of 10 (`000000000000000001010`), then register
code `00001`; and disassembling that word yields `ldim 10, %r1`. -/
theorem ldim_concrete_roundtrip :
    assemble_line "ldim 10, %r1".data [] 0 =
      Except.ok ("010101".data ++ "000000000000000001010".data ++ "00001".data) ∧
    disassemble_instruction
      ("010101".data ++ "000000000000000001010".data ++ "00001".data) 0 =
      Except.ok "ldim 10, %r1".data :=
  ⟨rfl, rfl⟩

/-- C9: the mnemonic→opcode and register→code tables have pairwise
distinct keys and pairwise distinct values, the disassembler's tables are
their exact pairwise-swapped inverses, and looking any mnemonic (or
register name) up in the forward table and its code up in the reverse
table is the identity, and conversely. -/
theorem tables_bijective :
    ((opcodes.map Prod.fst).Nodup ∧ (opcodes.map Prod.snd).Nodup) ∧
    ((registers.map Prod.fst).Nodup ∧ (registers.map Prod.snd).Nodup) ∧
    opcodes_to_mnemonics = opcodes.map (fun p => (p.2, p.1)) ∧
    registers_to_names = registers.map (fun p => (p.2, p.1)) ∧
    (∀ p ∈ opcodes, alookup p.2 opcodes_to_mnemonics = some p.1) ∧
    (∀ p ∈ opcodes_to_mnemonics, alookup p.2 opcodes = some p.1) ∧
    (∀ p ∈ registers, alookup p.2 registers_to_names = some p.1) ∧
    (∀ p ∈ registers_to_names, alookup p.2 registers = some p.1) := by
  decide

theorem ne_of_take_ne {α : Type} {l l' : List α} (k : Nat) (h : l.take k ≠ l'.take k) :
    l ≠ l' := by
  intro hc; exact h (by rw [hc])

/-- The generic dispatch on opcode `000000` reaches the final fallback:
the looked-up mnemonic is `clr`, which none of the decode branches
handles. -/
theorem disasmGeneric_clr (bs : List Char) (a : Nat) :
    disasmGeneric bs a "000000".data =
      Except.ok (errNotImplemented "000000".data "clr".data) := rfl

/-- C10: a 32-character binary word whose opcode field is `000000` but
which is not the all-zeros word is rejected by `disassemble_instruction`
with the fallback inline error marker, not decoded as `clr`. -/
theorem nonzero_clr_opcode_marker (bs : List Char) (a : Nat)
    (hbin : ∀ c ∈ bs, c = '0' ∨ c = '1')
    (hlen : bs.length = 32) (hop : bs.take 6 = "000000".data)
    (hne : bs ≠ List.replicate 32 '0') :
    disassemble_instruction bs a =
      Except.ok (errNotImplemented "000000".data "clr".data) := by
  have hones : bs ≠ List.replicate 32 '1' :=
    ne_of_take_ne 6 (by rw [hop]; decide)
  unfold disassemble_instruction
  rw [if_neg (by omega), List.drop_zero, hop, if_neg hones,
    if_neg (fun hc => hne hc.1), disasmGeneric_clr]

/-- Witness for C10 at the word `000000…01`. -/
theorem nonzero_clr_opcode_marker_check :
    disassemble_instruction "00000000000000000000000000000001".data 0 =
      Except.ok (errNotImplemented "000000".data "clr".data) :=
  nonzero_clr_opcode_marker "00000000000000000000000000000001".data 0
    (by decide) (by decide) (by decide) (by decide)

/-- Greedy `takeWhile`/`dropWhile` on a list that is an all-`p` block
followed by a block whose head fails `p`. -/
theorem takeWhile_append_all {p : Char → Bool} {ds rest : List Char}
    (h1 : ∀ c ∈ ds, p c = true)
    (h2 : ∀ c, rest.head? = some c → p c = false) :
    (ds ++ rest).takeWhile p = ds ∧ (ds ++ rest).dropWhile p = rest := by
  induction ds with
  | nil =>
    simp only [List.nil_append]
    cases rest with
    | nil => exact ⟨rfl, rfl⟩
    | cons c t =>
      have hc := h2 c rfl
      exact ⟨List.takeWhile_cons_of_neg (by simp [hc]),
        List.dropWhile_cons_of_neg (by simp [hc])⟩
  | cons d t ih =>
    have hd : p d = true := h1 d (List.mem_cons_self d t)
    have iht := ih (fun c hc => h1 c (List.mem_cons_of_mem d hc))
    constructor
    · rw [List.cons_append, List.takeWhile_cons_of_pos (by simp [hd]), iht.1]
    · rw [List.cons_append, List.dropWhile_cons_of_pos (by simp [hd]), iht.2]

/-- Successful greedy match of the register token on a canonical
decomposition. -/
theorem matchRegTok_canonical {rds rest : List Char} (h1 : rds ≠ [])
    (h2 : ∀ c ∈ rds, c.isDigit = true)
    (h3 : ∀ c, rest.head? = some c → c.isDigit = false) :
    matchRegTok ('%' :: 'r' :: (rds ++ rest)) = some ('%' :: 'r' :: rds, rest) := by
  obtain ⟨ht, hd⟩ := takeWhile_append_all h2 h3
  unfold matchRegTok
  rw [if_pos (show ('%' :: 'r' :: (rds ++ rest)).take 2 = ['%', 'r'] from rfl)]
  simp only [List.drop_succ_cons, List.drop_zero, ht, hd]
  rw [if_neg (by simp [List.isEmpty_iff, h1])]

theorem regTokenStr_of {ds2 : List Char} (hne : ds2.isEmpty = false)
    (hdig : ∀ c ∈ ds2, c.isDigit = true) : regTokenStr ('%' :: 'r' :: ds2) = true := by
  unfold regTokenStr
  have h1 : ('%' :: 'r' :: ds2).take 2 = ['%', 'r'] := rfl
  have h2 : ('%' :: 'r' :: ds2).drop 2 = ds2 := rfl
  rw [h1, h2, hne]
  simp only [decide_eq_true_eq, Bool.not_false, Bool.and_true, Bool.true_and, decide_True]
  rw [List.all_eq_true]
  intro c hc
  exact hdig c hc

/-- A successful register-token match whose remainder starts with `)`
yields a split position witnessing the spec's `(<register>)` shape. -/
theorem matchRegTok_paren_forward {l reg rest2 : List Char}
    (hm : matchRegTok l = some (reg, rest2)) (hr : rest2.head? = some ')') :
    (List.range (l.length + 1)).any (fun j =>
      regTokenStr (l.take j) && decide ((l.drop j).head? = some ')')) = true := by
  unfold matchRegTok at hm
  by_cases htk : l.take 2 = ['%', 'r']
  · rw [if_pos htk] at hm
    by_cases hds : ((l.drop 2).takeWhile Char.isDigit).isEmpty
    · rw [if_pos hds] at hm; cases hm
    · rw [if_neg hds] at hm
      injection hm with hm'
      have hrest : rest2 = (l.drop 2).dropWhile Char.isDigit :=
        (congrArg Prod.snd hm').symm
      set ds2 := (l.drop 2).takeWhile Char.isDigit with hds2
      have hsplit : ds2 ++ (l.drop 2).dropWhile Char.isDigit = l.drop 2 := by
        rw [hds2]; exact List.takeWhile_append_dropWhile Char.isDigit (l.drop 2)
      have hlfull : l = ('%' :: 'r' :: ds2) ++ rest2 := by
        conv_lhs => rw [← List.take_append_drop 2 l]
        conv_rhs => rw [hrest]
        conv_lhs => rw [htk, ← hsplit]
        rfl
      have hlen2 : ('%' :: 'r' :: ds2).length = 2 + ds2.length := by
        simp only [List.length_cons]; omega
      rw [List.any_eq_true]
      refine ⟨2 + ds2.length, List.mem_range.mpr ?_, ?_⟩
      · conv_rhs => rw [hlfull]
        simp only [List.length_append, hlen2]
        omega
      · have htake : l.take (2 + ds2.length) = '%' :: 'r' :: ds2 := by
          conv_lhs => rw [hlfull]
          exact List.take_left' hlen2
        have hdrop : l.drop (2 + ds2.length) = rest2 := by
          conv_lhs => rw [hlfull]
          exact List.drop_left' hlen2
        rw [htake, hdrop, hr]
        have hreg : regTokenStr ('%' :: 'r' :: ds2) = true :=
          regTokenStr_of (by simpa using hds)
            (fun c hc => List.mem_takeWhile_imp (hds2 ▸ hc))
        rw [hreg]
        simp
  · rw [if_neg htk] at hm; cases hm

/-- Converse: a split position of the `(<register>)` shape makes the
greedy register-token match succeed with a `)` right after the token. -/
theorem matchRegTok_paren_backward {l : List Char}
    (h : (List.range (l.length + 1)).any (fun j =>
      regTokenStr (l.take j) && decide ((l.drop j).head? = some ')')) = true) :
    ∃ reg rest2, matchRegTok l = some (reg, rest2) ∧ rest2.head? = some ')' := by
  rw [List.any_eq_true] at h
  obtain ⟨j, hjmem, hj⟩ := h
  rw [Bool.and_eq_true, decide_eq_true_eq] at hj
  obtain ⟨hreg, hrp⟩ := hj
  unfold regTokenStr at hreg
  rw [Bool.and_eq_true, Bool.and_eq_true, decide_eq_true_eq] at hreg
  obtain ⟨⟨htk2, hne⟩, hdig⟩ := hreg
  set dds := (l.take j).drop 2 with hdds
  have htj : l.take j = '%' :: 'r' :: dds := by
    conv_lhs => rw [← List.take_append_drop 2 (l.take j)]
    rw [htk2]; rfl
  have hl : l = '%' :: 'r' :: (dds ++ l.drop j) := by
    conv_lhs => rw [← List.take_append_drop j l]
    rw [htj]; rfl
  have hne' : dds ≠ [] := by
    intro hc
    have h0 : dds.isEmpty = true := List.isEmpty_iff.mpr hc
    rw [h0] at hne
    exact absurd hne (by decide)
  have hres : matchRegTok ('%' :: 'r' :: (dds ++ l.drop j)) =
      some ('%' :: 'r' :: dds, l.drop j) :=
    matchRegTok_canonical hne'
      (fun c hc => by rw [List.all_eq_true] at hdig; exact hdig c hc)
      (fun c hc => by
        have h2 := hc.symm.trans hrp
        injection h2 with h2
        subst h2
        rfl)
  refine ⟨'%' :: 'r' :: dds, l.drop j, ?_, hrp⟩
  conv_lhs => rw [hl]
  exact hres

theorem signedIntStr_minus {ds : List Char} (hne : ds.isEmpty = false)
    (hdig : ds.all Char.isDigit = true) : signedIntStr ('-' :: ds) = true := by
  unfold signedIntStr
  simp only [List.head?_cons, List.tail_cons]
  rw [if_pos trivial, hne, hdig]
  rfl

theorem signedIntStr_plain {ds : List Char} (hne : ds.isEmpty = false)
    (hdig : ds.all Char.isDigit = true) (hhead : ds.head? ≠ some '-') :
    signedIntStr ds = true := by
  unfold signedIntStr
  rw [if_neg hhead]
  show (!ds.isEmpty && ds.all Char.isDigit) = true
  rw [hne, hdig]
  rfl

/-- Building the loose spec shape from an explicit decomposition. -/
theorem memOperandStart_build {cs pre rest : List Char} (hcs : cs = pre ++ rest)
    (h1 : signedIntStr pre = true) (h2 : parenRegStart rest = true) :
    memOperandStart cs = true := by
  unfold memOperandStart
  rw [Bool.or_eq_true]
  left
  rw [List.any_eq_true]
  refine ⟨pre.length, List.mem_range.mpr ?_, ?_⟩
  · rw [hcs]; simp only [List.length_append]; omega
  · rw [hcs, List.take_left, List.drop_left, h1, h2]
    rfl

theorem memMatchNoOffset_some_start {cs reg : List Char}
    (h : memMatchNoOffset cs = some reg) : parenRegStart cs = true := by
  unfold memMatchNoOffset at h
  split at h
  case isTrue hp =>
    split at h
    next r1 r2 hm =>
      split at h
      case isTrue hr =>
        unfold parenRegStart
        rw [decide_eq_true hp, Bool.true_and]
        exact matchRegTok_paren_forward hm hr
      case isFalse => cases h
    next hm => cases h
  case isFalse => cases h

/-- The digit block taken by `takeWhile Char.isDigit` cannot start with a
minus sign. -/
theorem takeWhile_digit_head_ne_minus {l : List Char}
    (hde : (l.takeWhile Char.isDigit).isEmpty = false) :
    (l.takeWhile Char.isDigit).head? ≠ some '-' := by
  intro hh
  rcases htw : l.takeWhile Char.isDigit with _ | ⟨d, ds'⟩
  · rw [htw] at hde; simp at hde
  · rw [htw] at hh
    simp only [List.head?_cons, Option.some.injEq] at hh
    have hd : d.isDigit = true :=
      List.mem_takeWhile_imp (htw ▸ List.mem_cons_self d ds')
    rw [hh] at hd
    exact absurd hd (by decide)

theorem memMatchOffset_some_start {cs : List Char} {x : Int × List Char}
    (h : memMatchOffset cs = some x) : memOperandStart cs = true := by
  unfold memMatchOffset at h
  simp only at h
  by_cases hminus : cs.head? = some '-'
  · rw [if_pos hminus] at h
    split at h
    next hde => cases h
    next hde =>
      split at h
      next hp =>
        split at h
        next r1 r2 hm =>
          split at h
          next hr =>
            obtain ⟨c, t, hcs⟩ : ∃ c t, cs = c :: t := by
              cases cs with
              | nil => simp at hminus
              | cons c t => exact ⟨c, t, rfl⟩
            have hc : c = '-' := by
              rw [hcs] at hminus
              simp only [List.head?_cons, Option.some.injEq] at hminus
              exact hminus
            subst hc
            have htail : cs.tail = t := by rw [hcs]; rfl
            rw [htail] at hde hp hm
            have hsplit : t.takeWhile Char.isDigit ++ t.dropWhile Char.isDigit = t :=
              List.takeWhile_append_dropWhile Char.isDigit t
            refine @memOperandStart_build cs ('-' :: t.takeWhile Char.isDigit)
              (t.dropWhile Char.isDigit) ?_ ?_ ?_
            · rw [hcs, List.cons_append, hsplit]
            · refine signedIntStr_minus (by simpa using hde) ?_
              rw [List.all_eq_true]
              exact fun c hc => List.mem_takeWhile_imp hc
            · unfold parenRegStart
              rw [decide_eq_true hp, Bool.true_and]
              exact matchRegTok_paren_forward hm hr
          next hr => cases h
        next hm => cases h
      next hp => cases h
  · rw [if_neg hminus] at h
    split at h
    next hde => cases h
    next hde =>
      split at h
      next hp =>
        split at h
        next r1 r2 hm =>
          split at h
          next hr =>
            have hsplit : cs.takeWhile Char.isDigit ++ cs.dropWhile Char.isDigit = cs :=
              List.takeWhile_append_dropWhile Char.isDigit cs
            refine @memOperandStart_build cs (cs.takeWhile Char.isDigit)
              (cs.dropWhile Char.isDigit) hsplit.symm ?_ ?_
            · refine signedIntStr_plain (by simpa using hde) ?_
                (takeWhile_digit_head_ne_minus (by simpa using hde))
              rw [List.all_eq_true]
              exact fun c hc => List.mem_takeWhile_imp hc
            · unfold parenRegStart
              rw [decide_eq_true hp, Bool.true_and]
              exact matchRegTok_paren_forward hm hr
          next hr => cases h
        next hm => cases h
      next hp => cases h

/-- Evaluation of the offset regex on a negative-offset decomposition. -/
theorem memMatchOffset_eval_minus {t ds rest reg rest2 : List Char}
    (hsplit : t = ds ++ rest) (hne : ds ≠ []) (hdig : ∀ c ∈ ds, c.isDigit = true)
    (hp : rest.head? = some '(')
    (hm : matchRegTok rest.tail = some (reg, rest2)) (hr : rest2.head? = some ')') :
    memMatchOffset ('-' :: t) = some (-(decVal ds : Int), reg) := by
  obtain ⟨htw, hdw⟩ := takeWhile_append_all (p := Char.isDigit) hdig
    (fun c hc => by
      have h2 := hc.symm.trans hp
      injection h2 with h2
      subst h2
      rfl)
  unfold memMatchOffset
  simp only [List.head?_cons, List.tail_cons]
  simp only [if_true]
  rw [hsplit, htw, hdw]
  rw [if_neg (by simpa [List.isEmpty_iff] using hne), if_pos hp, hm]
  simp [hr]

/-- Evaluation of the offset regex on a non-negative decomposition. -/
theorem memMatchOffset_eval_plain {ds rest reg rest2 : List Char}
    (hne : ds ≠ []) (hdig : ∀ c ∈ ds, c.isDigit = true)
    (hhead : (ds ++ rest).head? ≠ some '-')
    (hp : rest.head? = some '(')
    (hm : matchRegTok rest.tail = some (reg, rest2)) (hr : rest2.head? = some ')') :
    memMatchOffset (ds ++ rest) = some ((decVal ds : Int), reg) := by
  obtain ⟨htw, hdw⟩ := takeWhile_append_all (p := Char.isDigit) hdig
    (fun c hc => by
      have h2 := hc.symm.trans hp
      injection h2 with h2
      subst h2
      rfl)
  unfold memMatchOffset
  simp only
  rw [if_neg hhead, if_neg hhead, htw, hdw]
  rw [if_neg (by simpa [List.isEmpty_iff] using hne), if_pos hp, hm]
  simp [hr]

/-- Evaluation of the zero-offset shorthand regex. -/
theorem memMatchNoOffset_eval {cs reg rest2 : List Char}
    (hp : cs.head? = some '(')
    (hm : matchRegTok cs.tail = some (reg, rest2)) (hr : rest2.head? = some ')') :
    memMatchNoOffset cs = some reg := by
  unfold memMatchNoOffset
  rw [if_pos hp, hm]
  simp [hr]

/-- On a string opening with `(` the offset regex fails (no digits). -/
theorem memMatchOffset_none_of_lparen {cs : List Char} (hp : cs.head? = some '(') :
    memMatchOffset cs = none := by
  have hm : cs.head? ≠ some '-' := by rw [hp]; decide
  have htw : cs.takeWhile Char.isDigit = [] := by
    cases cs with
    | nil => rfl
    | cons c t =>
      have hc : c = '(' := by simpa using hp
      subst hc
      exact List.takeWhile_cons_of_neg (by decide)
  unfold memMatchOffset
  simp only
  rw [if_neg hm, htw]
  rfl

theorem head?_take {cs : List Char} {i : Nat} {d : Char}
    (h : (cs.take i).head? = some d) : cs.head? = some d := by
  cases i with
  | zero => simp at h
  | succ k =>
    cases cs with
    | nil => simp at h
    | cons c t => simpa using h

/-- Converse direction: the loose spec shape forces one of the two
regexes to match. -/
theorem memOperandStart_to_match {cs : List Char} (h : memOperandStart cs = true) :
    (memMatchOffset cs).isSome = true ∨ (memMatchNoOffset cs).isSome = true := by
  unfold memOperandStart at h
  rw [Bool.or_eq_true] at h
  rcases h with h | h
  · rw [List.any_eq_true] at h
    obtain ⟨i, hi, hcond⟩ := h
    rw [Bool.and_eq_true] at hcond
    obtain ⟨hsint, hparen⟩ := hcond
    unfold parenRegStart at hparen
    rw [Bool.and_eq_true, decide_eq_true_eq] at hparen
    obtain ⟨hp, hany⟩ := hparen
    obtain ⟨reg, rest2, hm, hr⟩ := matchRegTok_paren_backward hany
    unfold signedIntStr at hsint
    simp only at hsint
    by_cases hmt : (cs.take i).head? = some '-'
    · rw [if_pos hmt] at hsint
      rw [Bool.and_eq_true] at hsint
      obtain ⟨hne, hdig⟩ := hsint
      cases i with
      | zero => simp at hmt
      | succ k =>
        cases cs with
        | nil => simp at hmt
        | cons c t =>
          have hc : c = '-' := by simpa using hmt
          subst hc
          left
          have htk : (('-' :: t).take (k + 1)).tail = t.take k := by
            rw [List.take_succ_cons]; rfl
          rw [htk] at hne hdig
          have hdrop : ('-' :: t).drop (k + 1) = t.drop k := by
            rw [List.drop_succ_cons]
          rw [hdrop] at hp hm
          rw [memMatchOffset_eval_minus (List.take_append_drop k t).symm
            (by simpa [List.isEmpty_iff] using hne)
            (fun c hc => by rw [List.all_eq_true] at hdig; exact hdig c hc)
            hp hm hr]
          rfl
    · rw [if_neg hmt] at hsint
      rw [Bool.and_eq_true] at hsint
      obtain ⟨hne, hdig⟩ := hsint
      left
      have hnil : cs.take i ≠ [] := by
        intro hc; rw [hc] at hne; exact absurd hne (by decide)
      obtain ⟨d, t', hdt⟩ : ∃ d t', cs.take i = d :: t' := by
        cases htk : cs.take i with
        | nil => exact absurd htk hnil
        | cons d t' => exact ⟨d, t', rfl⟩
      have hddig : d.isDigit = true := by
        rw [List.all_eq_true] at hdig
        exact hdig d (by rw [hdt]; exact List.mem_cons_self d t')
      have hhead : cs.head? ≠ some '-' := by
        have hh : cs.head? = some d := head?_take (by rw [hdt]; rfl)
        rw [hh]
        intro hc
        injection hc with hc
        rw [hc] at hddig
        exact absurd hddig (by decide)
      have hres := memMatchOffset_eval_plain
        hnil (fun c hc => by rw [List.all_eq_true] at hdig; exact hdig c hc)
        (by rw [List.take_append_drop]; exact hhead) hp hm hr
      rw [List.take_append_drop] at hres
      rw [hres]
      rfl
  · right
    unfold parenRegStart at h
    rw [Bool.and_eq_true, decide_eq_true_eq] at h
    obtain ⟨hp, hany⟩ := h
    obtain ⟨reg, rest2, hm, hr⟩ := matchRegTok_paren_backward hany
    rw [memMatchNoOffset_eval hp hm hr]
    rfl

/-- C4 counterexample: the input text `0(%r1)x` is not of the shape
`<signed-integer>(<register>)` (nor the shorthand), yet
`parse_memory_address` returns the pair `(0, %r1)` instead of failing
with `MalformedOperand`, because the source's `re.match` never anchors
the end of the string. -/
theorem parse_memory_address_accepts_trailing :
    memOperandShape "0(%r1)x".data = false ∧
    parse_memory_address "0(%r1)x".data = Except.ok ((0 : Int), "%r1".data) :=
  ⟨by decide, by rfl⟩

/-- C4 (amended): after removing every comma, `parse_memory_address`
succeeds exactly when a prefix of the remaining text is
`<signed-integer>(%r<digits>)` or the zero-offset shorthand
`(%r<digits>)`; the text after the closing parenthesis is ignored and the
register token is not checked against the register table.  On everything
else it fails with `MalformedOperand`. -/
theorem parse_memory_address_start_shape (s : List Char) :
    (parse_memory_address s).isOk = memOperandStart (s.filter (· ≠ ',')) := by
  cases hval : memOperandStart (s.filter (· ≠ ',')) with
  | true =>
    rcases memOperandStart_to_match hval with h | h
    · obtain ⟨x, hx⟩ := Option.isSome_iff_exists.mp h
      unfold parse_memory_address
      simp only
      rw [hx]
      obtain ⟨o, r⟩ := x
      rfl
    · obtain ⟨reg, hx⟩ := Option.isSome_iff_exists.mp h
      unfold parse_memory_address
      simp only
      cases hmo : memMatchOffset (s.filter (· ≠ ',')) with
      | some y =>
        obtain ⟨o, r⟩ := y
        rfl
      | none =>
        rw [hx]
        rfl
  | false =>
    have h1 : memMatchOffset (s.filter (· ≠ ',')) = none := by
      cases hmo : memMatchOffset (s.filter (· ≠ ',')) with
      | none => rfl
      | some x =>
        have hc := memMatchOffset_some_start hmo
        rw [hval] at hc
        exact absurd hc (by decide)
    have h2 : memMatchNoOffset (s.filter (· ≠ ',')) = none := by
      cases hmn : memMatchNoOffset (s.filter (· ≠ ',')) with
      | none => rfl
      | some reg =>
        have hp := memMatchNoOffset_some_start hmn
        have hc : memOperandStart (s.filter (· ≠ ',')) = true := by
          unfold memOperandStart
          rw [hp, Bool.or_true]
        rw [hval] at hc
        exact absurd hc (by decide)
    unfold parse_memory_address
    simp only
    rw [h1, h2]
    rfl

theorem alookup_append {β : Type} (k : List Char) (l1 l2 : List (List Char × β)) :
    alookup k (l1 ++ l2) =
      match alookup k l1 with
      | some v => some v
      | none => alookup k l2 := by
  induction l1 with
  | nil => rfl
  | cons p t ih =>
    obtain ⟨k', v⟩ := p
    by_cases hk : k = k'
    · simp [alookup, hk]
    · simp [alookup, hk, ih]

theorem alookup_append_left_none {β : Type} {k : List Char} {l1 l2 : List (List Char × β)}
    (h : alookup k l1 = none) : alookup k (l1 ++ l2) = alookup k l2 := by
  rw [alookup_append, h]

theorem alookup_append_none {β : Type} {k : List Char} {l1 l2 : List (List Char × β)}
    (h : alookup k (l1 ++ l2) = none) : alookup k l1 = none := by
  rw [alookup_append] at h
  cases hl : alookup k l1 with
  | none => rfl
  | some v => rw [hl] at h; cases h

theorem lineLabel?_nil : lineLabel? [] = none := rfl

theorem labelsOf_append (a b : List (List Char)) :
    labelsOf (a ++ b) = labelsOf a ++ labelsOf b := by
  unfold labelsOf
  exact List.filterMap_append a b _

/-- Pass 1 appends exactly the specified bindings to the label table. -/
theorem pass1Aux_table : ∀ (ls : List (List Char)) (st st' : P1State),
    pass1Aux ls st = Except.ok st' → st'.table = st.table ++ bindingsFrom st.addr ls := by
  intro ls
  induction ls with
  | nil =>
    intro st st' h
    injection h with h
    rw [← h]
    simp [bindingsFrom]
  | cons l t ih =>
    intro st st' h
    unfold pass1Aux at h
    unfold bindingsFrom
    simp only at h ⊢
    split at h
    next hemp =>
      rw [if_pos hemp]
      exact ih _ _ h
    next hemp =>
      rw [if_neg hemp]
      split at h
      next lab hlab =>
        split at h
        next v hlk => cases h
        next hlk =>
          have := ih _ _ h
          rw [this]
          simp [List.append_assoc]
      next hlab =>
        have := ih _ _ h
        exact this

/-- The only error Pass 1 can raise is the duplicate-label condition. -/
theorem pass1Aux_error : ∀ (ls : List (List Char)) (st : P1State) (e : AsmErr),
    pass1Aux ls st = Except.error e → e = AsmErr.duplicateLabel := by
  intro ls
  induction ls with
  | nil => intro st e h; cases h
  | cons l t ih =>
    intro st e h
    unfold pass1Aux at h
    simp only at h
    split at h
    next hemp => exact ih _ _ h
    next hemp =>
      split at h
      next lab hlab =>
        split at h
        next v hlk =>
          injection h with h
          exact h.symm
        next hlk => exact ih _ _ h
      next hlab => exact ih _ _ h

/-- A successful Pass 1 run saw pairwise distinct labels, none of which
was already bound in the starting table. -/
theorem pass1Aux_labels : ∀ (ls : List (List Char)) (st st' : P1State),
    pass1Aux ls st = Except.ok st' →
    (labelsOf ls).Nodup ∧ ∀ L ∈ labelsOf ls, alookup L st.table = none := by
  intro ls
  induction ls with
  | nil => intro st st' h; exact ⟨List.nodup_nil, by intro L hL; cases hL⟩
  | cons l t ih =>
    intro st st' h
    unfold pass1Aux at h
    simp only at h
    unfold labelsOf
    rw [List.filterMap_cons]
    split at h
    next hemp =>
      have hlab : lineLabel? (cleanLine l) = none := by
        rw [List.isEmpty_iff.mp hemp]; rfl
      rw [hlab]
      exact ih _ _ h
    next hemp =>
      split at h
      next lab hlab =>
        rw [hlab]
        split at h
        next v hlk => cases h
        next hlk =>
          obtain ⟨nd, hall⟩ := ih _ _ h
          have hnotmem : lab ∉ labelsOf t := by
            intro hmem
            have hx := hall lab hmem
            rw [alookup_append, hlk] at hx
            simp [alookup] at hx
          show (lab :: labelsOf t).Nodup ∧
            ∀ L ∈ lab :: labelsOf t, alookup L st.table = none
          refine ⟨List.nodup_cons.mpr ⟨hnotmem, nd⟩, ?_⟩
          intro L hL
          rcases List.mem_cons.mp hL with rfl | hL'
          · exact hlk
          · exact alookup_append_none (hall L hL')
      next hlab =>
        rw [hlab]
        have := ih _ _ h
        exact this

/-- C5: a program with two label-definition lines binding the same
identifier fails the whole assembly run with `DuplicateLabel`; in this
model `Except.error` is exactly the aborted run, with no output words
produced (SMA.py writes the output file only after both passes finish,
and exits before that on any error). -/
theorem duplicate_label_fails (pre mid post : List (List Char)) (l1 l2 L : List Char)
    (h1 : lineLabel? (cleanLine l1) = some L) (h2 : lineLabel? (cleanLine l2) = some L) :
    run_assembler (pre ++ l1 :: mid ++ l2 :: post) = Except.error AsmErr.duplicateLabel := by
  cases hp : pass1 (pre ++ l1 :: mid ++ l2 :: post) with
  | error e =>
    have he : e = AsmErr.duplicateLabel := pass1Aux_error _ _ _ hp
    subst he
    unfold run_assembler
    rw [hp]
    rfl
  | ok st =>
    exfalso
    obtain ⟨nd, _⟩ := pass1Aux_labels _ _ _ hp
    have hsplit : labelsOf (pre ++ l1 :: mid ++ l2 :: post) =
        labelsOf pre ++ ((L :: labelsOf mid) ++ (L :: labelsOf post)) := by
      rw [labelsOf_append, labelsOf_append]
      unfold labelsOf
      rw [List.filterMap_cons, h1, List.filterMap_cons, h2]
      simp [List.append_assoc]
    rw [hsplit] at nd
    have nd2 := nd.of_append_right
    have hd := List.disjoint_of_nodup_append nd2
    exact hd (List.mem_cons_self L _) (List.mem_cons_self L _)

/-- Witness for C5 on the two-line program `x:` / `x:`. -/
theorem duplicate_label_fails_check :
    run_assembler ["x:".data, "x:".data] = Except.error AsmErr.duplicateLabel :=
  duplicate_label_fails [] [] [] "x:".data "x:".data "x".data (by rfl) (by rfl)
theorem instrCount_nil : instrCount [] = 0 := rfl

theorem bindingsFrom_cons_skip {l : List Char} {ls : List (List Char)} {base : Nat}
    (h : (cleanLine l).isEmpty = true) :
    bindingsFrom base (l :: ls) = bindingsFrom base ls := by
  simp only [bindingsFrom]
  rw [if_pos h]

theorem bindingsFrom_cons_label {l lab : List Char} {ls : List (List Char)} {base : Nat}
    (h1 : (cleanLine l).isEmpty = false) (h2 : lineLabel? (cleanLine l) = some lab) :
    bindingsFrom base (l :: ls) = (lab, base) :: bindingsFrom base ls := by
  simp only [bindingsFrom]
  rw [if_neg (by simp [h1]), h2]

theorem bindingsFrom_cons_instr {l : List Char} {ls : List (List Char)} {base : Nat}
    (h1 : (cleanLine l).isEmpty = false) (h2 : lineLabel? (cleanLine l) = none) :
    bindingsFrom base (l :: ls) = bindingsFrom (base + 1) ls := by
  simp only [bindingsFrom]
  rw [if_neg (by simp [h1]), h2]

theorem instrCount_cons_skip {l : List Char} {t : List (List Char)}
    (h : (!(cleanLine l).isEmpty && (lineLabel? (cleanLine l)).isNone) = false) :
    instrCount (l :: t) = instrCount t := by
  unfold instrCount
  rw [List.filter_cons, h]
  simp

theorem instrCount_cons_instr {l : List Char} {t : List (List Char)}
    (h : (!(cleanLine l).isEmpty && (lineLabel? (cleanLine l)).isNone) = true) :
    instrCount (l :: t) = instrCount t + 1 := by
  unfold instrCount
  rw [List.filter_cons, h]
  simp [List.length_cons]

theorem bindingsFrom_append (a b : List (List Char)) : ∀ base : Nat,
    bindingsFrom base (a ++ b) = bindingsFrom base a ++ bindingsFrom (base + instrCount a) b := by
  induction a with
  | nil => intro base; simp [bindingsFrom, instrCount_nil]
  | cons l t ih =>
    intro base
    simp only [List.cons_append]
    by_cases hemp : (cleanLine l).isEmpty
    · rw [bindingsFrom_cons_skip hemp, bindingsFrom_cons_skip hemp, ih base,
        instrCount_cons_skip (by simp [hemp])]
    · have hemp' : (cleanLine l).isEmpty = false := by
        cases hq : (cleanLine l).isEmpty
        · rfl
        · exact absurd hq hemp
      cases hlab : lineLabel? (cleanLine l) with
      | some lab =>
        rw [bindingsFrom_cons_label hemp' hlab, bindingsFrom_cons_label hemp' hlab,
          ih base, instrCount_cons_skip (by simp [hlab])]
        rfl
      | none =>
        rw [bindingsFrom_cons_instr hemp' hlab, bindingsFrom_cons_instr hemp' hlab,
          ih (base + 1), instrCount_cons_instr (by simp [hemp', hlab])]
        congr 2
        omega

theorem alookup_bindingsFrom_none {L : List Char} : ∀ (ls : List (List Char)) (base : Nat),
    L ∉ labelsOf ls → alookup L (bindingsFrom base ls) = none := by
  intro ls
  induction ls with
  | nil => intro base h; rfl
  | cons l t ih =>
    intro base h
    unfold labelsOf at h
    rw [List.filterMap_cons] at h
    by_cases hemp : (cleanLine l).isEmpty
    · rw [bindingsFrom_cons_skip hemp]
      have hlab : lineLabel? (cleanLine l) = none := by
        rw [List.isEmpty_iff.mp hemp]; rfl
      rw [hlab] at h
      exact ih base h
    · have hemp' : (cleanLine l).isEmpty = false := by
        cases hq : (cleanLine l).isEmpty
        · rfl
        · exact absurd hq hemp
      cases hlab : lineLabel? (cleanLine l) with
      | some lab =>
        rw [hlab] at h
        have h' : L ∉ lab :: labelsOf t := h
        rw [bindingsFrom_cons_label hemp' hlab]
        have hne : L ≠ lab := fun hc => h' (by rw [hc]; exact List.mem_cons_self _ _)
        have hrest : L ∉ labelsOf t := fun hc => h' (List.mem_cons_of_mem _ hc)
        unfold alookup
        rw [if_neg hne]
        exact ih base hrest
      | none =>
        rw [hlab] at h
        have h' : L ∉ labelsOf t := h
        rw [bindingsFrom_cons_instr hemp' hlab]
        exact ih (base + 1) h'

/-- C6: on a successful Pass 1, a label-definition line binds its
identifier to the number of instruction lines preceding it (the count of
instructions emitted so far, not the source line number); and
`assemble_line` never reads its current-address argument, so a label
operand resolves through this completed table to the same address no
matter where the referencing instruction sits relative to the
definition. -/
theorem label_binding_address (pre post : List (List Char)) (lbl L t : List Char)
    (T : List (List Char × Nat)) (a a' : Nat) (st : P1State)
    (hl : lineLabel? (cleanLine lbl) = some L)
    (hp : pass1 (pre ++ lbl :: post) = Except.ok st) :
    alookup L st.table = some (instrCount pre) ∧
    assemble_line t T a = assemble_line t T a' := by
  constructor
  · have htab : st.table = bindingsFrom 0 (pre ++ lbl :: post) := by
      have := pass1Aux_table _ _ _ hp
      simpa using this
    rw [htab, bindingsFrom_append]
    have hnot : L ∉ labelsOf pre := by
      obtain ⟨nd, _⟩ := pass1Aux_labels _ _ _ hp
      rw [labelsOf_append] at nd
      have hd := List.disjoint_of_nodup_append nd
      intro hmem
      refine hd hmem ?_
      show L ∈ labelsOf (lbl :: post)
      unfold labelsOf
      rw [List.filterMap_cons, hl]
      exact List.mem_cons_self _ _
    rw [alookup_append_left_none (alookup_bindingsFrom_none _ _ hnot)]
    have hne : (cleanLine lbl).isEmpty = false := by
      cases hq : (cleanLine lbl).isEmpty
      · rfl
      · rw [List.isEmpty_iff.mp hq] at hl; cases hl
    rw [bindingsFrom_cons_label hne hl]
    unfold alookup
    rw [if_pos rfl]
    congr 1
    omega
  · rfl

/-- Witness for C6: in the program `ldim 1, %r1` / `foo:` / `jmp foo`
the label `foo` is bound to address 1, the count of instructions before
its definition line. -/
theorem label_binding_address_check :
    alookup "foo".data
      (P1State.table ⟨[("foo".data, 1)],
        [("ldim 1, %r1".data, 0), ("jmp foo".data, 1)], 2⟩) =
      some (instrCount ["ldim 1, %r1".data]) ∧
    assemble_line "clr".data [] 0 = assemble_line "clr".data [] 5 :=
  label_binding_address ["ldim 1, %r1".data] ["jmp foo".data] "foo:".data "foo".data
    "clr".data [] 0 5
    ⟨[("foo".data, 1)], [("ldim 1, %r1".data, 0), ("jmp foo".data, 1)], 2⟩
    (by rfl) (by rfl)

theorem runDisAux_cons_skip {l : List Char} {ls : List (List Char)} {a : Nat}
    (h : (pyStrip l).isEmpty = true) :
    runDisAux a (l :: ls) = runDisAux (a + 1) ls := by
  simp only [runDisAux]
  rw [if_pos h]

theorem runDisAux_cons_err {l : List Char} {ls : List (List Char)} {a : Nat}
    (h1 : (pyStrip l).isEmpty = false) (h2 : (pyStrip l).length ≠ 32) :
    runDisAux a (l :: ls) = (do
      let rest ← runDisAux (a + 1) ls
      Except.ok (errRunLength a :: rest)) := by
  simp only [runDisAux]
  rw [if_neg (by simp [h1]), if_pos h2]

theorem runDisAux_cons_word {l : List Char} {ls : List (List Char)} {a : Nat}
    (h1 : (pyStrip l).isEmpty = false) (h2 : (pyStrip l).length = 32) :
    runDisAux a (l :: ls) = (do
      let w ← disassemble_instruction (pyStrip l) a
      let rest ← runDisAux (a + 1) ls
      Except.ok (w :: rest)) := by
  simp only [runDisAux]
  rw [if_neg (by simp [h1]), if_neg (by omega)]

theorem runDisAux_append (xs ys : List (List Char)) : ∀ a : Nat,
    runDisAux a (xs ++ ys) = (do
      let u ← runDisAux a xs
      let v ← runDisAux (a + xs.length) ys
      Except.ok (u ++ v)) := by
  induction xs with
  | nil =>
    intro a
    simp only [List.nil_append, List.length_nil, Nat.add_zero]
    cases h : runDisAux a ys <;> simp [h, runDisAux, Except.instMonad, Except.bind, Except.pure]
  | cons l t ih =>
    intro a
    simp only [List.cons_append]
    have haddr : a + (l :: t).length = (a + 1) + t.length := by
      simp only [List.length_cons]
      omega
    by_cases hemp : (pyStrip l).isEmpty
    · rw [runDisAux_cons_skip hemp, runDisAux_cons_skip hemp, ih (a + 1), haddr]
    · have hemp2 : (pyStrip l).isEmpty = false := by
        cases hq : (pyStrip l).isEmpty
        · rfl
        · exact absurd hq hemp
      by_cases hlen : (pyStrip l).length = 32
      · rw [runDisAux_cons_word hemp2 hlen, runDisAux_cons_word hemp2 hlen,
          ih (a + 1), haddr]
        cases hd : disassemble_instruction (pyStrip l) a <;>
          cases h1 : runDisAux (a + 1) t <;>
            cases h2 : runDisAux ((a + 1) + t.length) ys <;>
              simp [hd, h1, h2, Except.instMonad, Except.bind, Except.pure]
      · rw [runDisAux_cons_err hemp2 hlen, runDisAux_cons_err hemp2 hlen,
          ih (a + 1), haddr]
        cases h1 : runDisAux (a + 1) t <;>
          cases h2 : runDisAux ((a + 1) + t.length) ys <;>
            simp [h1, h2, Except.instMonad, Except.bind, Except.pure]

/-- C8 (amended): when the lines before the 31-character line disassemble
to `u`, the lines after it (at their shifted enumeration indices)
disassemble to `v`, and the comparison word `w` decodes to `t`, the run
with the bad line succeeds and emits the inline invalid-length marker at
that position followed by exactly `v` — the same lines the run with `w`
in that position emits after `t`.  (The original unconditional claim is
refuted by `bad_length_then_nonbinary_aborts`: a later line can make
`int(s, 2)` raise, aborting the whole run with no output at all.) -/
theorem bad_length_line_recoverable (pre post : List (List Char)) (bad w : List Char)
    (u v : List (List Char)) (t : List Char)
    (hbad : (pyStrip bad).length = 31) (hw : (pyStrip w).length = 32)
    (hu : runDisAux 0 pre = Except.ok u)
    (hv : runDisAux (pre.length + 1) post = Except.ok v)
    (ht : disassemble_instruction (pyStrip w) pre.length = Except.ok t) :
    run_disassembler (pre ++ bad :: post) =
      Except.ok (u ++ errRunLength pre.length :: v) ∧
    run_disassembler (pre ++ w :: post) = Except.ok (u ++ t :: v) := by
  have hbne : (pyStrip bad).isEmpty = false := by
    cases hq : (pyStrip bad).isEmpty
    · rfl
    · rw [List.isEmpty_iff.mp hq] at hbad; cases hbad
  have hwne : (pyStrip w).isEmpty = false := by
    cases hq : (pyStrip w).isEmpty
    · rfl
    · rw [List.isEmpty_iff.mp hq] at hw; cases hw
  unfold run_disassembler
  rw [runDisAux_append, runDisAux_append, hu]
  simp only [Nat.zero_add]
  constructor
  · rw [runDisAux_cons_err hbne (by omega), hv]
    simp [Except.instMonad, Except.bind, Except.pure]
  · rw [runDisAux_cons_word hwne hw, ht, hv]
    simp [Except.instMonad, Except.bind, Except.pure]

/-- C8 witness at a concrete program: a 31-zero line (versus the word
`111…110`) followed by the all-ones `end` word. -/
theorem bad_length_line_recoverable_check :
    run_disassembler (([] : List (List Char)) ++
        "0000000000000000000000000000000".data ::
        ["11111111111111111111111111111111".data]) =
      Except.ok (([] : List (List Char)) ++
        errRunLength (List.length ([] : List (List Char))) :: ["end".data]) ∧
    run_disassembler (([] : List (List Char)) ++
        "11111111111111111111111111111110".data ::
        ["11111111111111111111111111111111".data]) =
      Except.ok (([] : List (List Char)) ++
        errNotImplemented "111111".data "end".data :: ["end".data]) :=
  bad_length_line_recoverable [] ["11111111111111111111111111111111".data]
    "0000000000000000000000000000000".data
    "11111111111111111111111111111110".data
    [] ["end".data] (errNotImplemented "111111".data "end".data)
    (by rfl) (by rfl) (by rfl) (by rfl) (by rfl)

/-- C8 counterexample: the input contains a 31-character line, but a
later 32-character line whose jump-target field contains the digit `2`
makes `int(s, 2)` raise `ValueError`; `run_disassembler`'s
`except Exception` handler exits the run before the output file is
written, so no invalid-length marker is emitted and no subsequent word
is decoded. -/
theorem bad_length_then_nonbinary_aborts :
    (pyStrip "0000000000000000000000000000000".data).length = 31 ∧
    run_disassembler ["0000000000000000000000000000000".data,
      "001000".data ++ List.replicate 26 '2'] = Except.error AsmErr.valueError :=
  ⟨rfl, rfl⟩


theorem isIdentChar_ne_comma {c : Char} (h : isIdentChar c = true) : c ≠ ',' := by
  rintro rfl; exact absurd h (by decide)

theorem isIdentChar_not_space {c : Char} (h : isIdentChar c = true) : pyIsSpace c = false := by
  have n1 : c ≠ ' ' := by rintro rfl; exact absurd h (by decide)
  have n2 : c ≠ '\t' := by rintro rfl; exact absurd h (by decide)
  have n3 : c ≠ '\n' := by rintro rfl; exact absurd h (by decide)
  have n4 : c ≠ '\x0d' := by rintro rfl; exact absurd h (by decide)
  have n5 : c ≠ '\x0b' := by rintro rfl; exact absurd h (by decide)
  have n6 : c ≠ '\x0c' := by rintro rfl; exact absurd h (by decide)
  simp [pyIsSpace, n1, n2, n3, n4, n5, n6]

theorem decChars_not_space {n : Nat} : ∀ c ∈ decChars n, pyIsSpace c = false :=
  fun c hc => isDigit_not_space (decChars_all_digit c hc)

theorem regName_no_comma (n : Fin 32) : ∀ c ∈ regName n, c ≠ ',' := by
  intro c hc
  rcases List.mem_cons.mp hc with rfl | hc'
  · decide
  · rcases List.mem_cons.mp hc' with rfl | hc''
    · decide
    · exact isDigit_ne_comma (decChars_all_digit c hc'')

theorem regName_not_space (n : Fin 32) : ∀ c ∈ regName n, pyIsSpace c = false := by
  intro c hc
  rcases List.mem_cons.mp hc with rfl | hc'
  · decide
  · rcases List.mem_cons.mp hc' with rfl | hc''
    · decide
    · exact decChars_not_space c hc''

theorem intToDecChars_not_space (v : Int) : ∀ c ∈ intToDecChars v, pyIsSpace c = false := by
  intro c hc
  unfold intToDecChars at hc
  by_cases h : v < 0
  · rw [if_pos h] at hc
    rcases List.mem_cons.mp hc with rfl | hc'
    · decide
    · exact decChars_not_space c hc'
  · rw [if_neg h] at hc
    exact decChars_not_space c hc

theorem memText_no_comma (off : Int) (n : Fin 32) : ∀ c ∈ memText off n, c ≠ ',' := by
  intro c hc
  unfold memText at hc
  rcases List.mem_append.mp hc with hc' | hc'
  · exact intToDecChars_no_comma off c hc'
  · rcases List.mem_cons.mp hc' with rfl | hc''
    · decide
    · rcases List.mem_append.mp hc'' with hc3 | hc3
      · exact regName_no_comma n c hc3
      · rcases List.mem_singleton.mp hc3 with rfl
        decide

theorem memText_not_space (off : Int) (n : Fin 32) : ∀ c ∈ memText off n, pyIsSpace c = false := by
  intro c hc
  unfold memText at hc
  rcases List.mem_append.mp hc with hc' | hc'
  · exact intToDecChars_not_space off c hc'
  · rcases List.mem_cons.mp hc' with rfl | hc''
    · decide
    · rcases List.mem_append.mp hc'' with hc3 | hc3
      · exact regName_not_space n c hc3
      · rcases List.mem_singleton.mp hc3 with rfl
        decide

theorem dropWhile_of_head {p : Char → Bool} {l : List Char}
    (h : ∀ c, l.head? = some c → p c = false) : l.dropWhile p = l := by
  cases l with
  | nil => rfl
  | cons c t => exact List.dropWhile_cons_of_neg (by simp [h c rfl])

theorem takeWhile_of_all {p : Char → Bool} {l : List Char}
    (h : ∀ c ∈ l, p c = true) : l.takeWhile p = l := by
  induction l with
  | nil => rfl
  | cons c t ih =>
    rw [List.takeWhile_cons_of_pos (h c (List.mem_cons_self c t))]
    rw [ih (fun c hc => h c (List.mem_cons_of_mem _ hc))]

theorem dropWhile_of_all {p : Char → Bool} {l : List Char}
    (h : ∀ c ∈ l, p c = false) : l.dropWhile p = l := by
  apply dropWhile_of_head
  intro c hc
  cases l with
  | nil => cases hc
  | cons d t =>
    injection hc with hc
    subst hc
    exact h _ (List.mem_cons_self _ _)

/-- `line.split(maxsplit=1)` on a canonical `token SP rest` line. -/
theorem splitMax1_token {tok rest : List Char}
    (h1 : tok ≠ []) (h2 : ∀ c ∈ tok, pyIsSpace c = false)
    (h3 : rest ≠ []) (h4 : ∀ c, rest.head? = some c → pyIsSpace c = false) :
    splitMax1 (tok ++ ' ' :: rest) = [tok, rest] := by
  unfold splitMax1
  simp only
  have hdrop : (tok ++ ' ' :: rest).dropWhile pyIsSpace = tok ++ ' ' :: rest := by
    apply dropWhile_of_head
    intro c hc
    cases tok with
    | nil => exact absurd rfl h1
    | cons d t =>
      injection hc with hc
      subst hc
      exact h2 _ (List.mem_cons_self _ _)
  rw [hdrop]
  rw [if_neg (by simp [List.isEmpty_iff, h1])]
  obtain ⟨htw, hdw⟩ := @takeWhile_append_all (fun c => !pyIsSpace c)
    tok (' ' :: rest)
    (fun c hc => by simp [h2 c hc])
    (fun c hc => by
      injection hc with hc
      subst hc
      rfl)
  rw [htw, hdw]
  have hdw2 : (' ' :: rest).dropWhile pyIsSpace = rest := by
    rw [List.dropWhile_cons_of_pos (by decide)]
    exact dropWhile_of_head h4
  rw [hdw2, if_neg (by simp [List.isEmpty_iff, h3])]

/-- `line.split(maxsplit=1)` on a single-token line. -/
theorem splitMax1_single {tok : List Char}
    (h1 : tok ≠ []) (h2 : ∀ c ∈ tok, pyIsSpace c = false) :
    splitMax1 tok = [tok] := by
  unfold splitMax1
  simp only
  have hdrop : tok.dropWhile pyIsSpace = tok := dropWhile_of_all h2
  rw [hdrop]
  rw [if_neg (by simp [List.isEmpty_iff, h1])]
  rw [takeWhile_of_all (fun c hc => by simp [h2 c hc])]
  have hnil : tok.dropWhile (fun c => !pyIsSpace c) = [] :=
    List.dropWhile_eq_nil_iff.mpr (fun c hc => by simp [h2 c hc])
  rw [hnil]
  rfl

theorem splitComma_no_comma {xs : List Char} (h : ∀ c ∈ xs, c ≠ ',') :
    splitComma xs = [xs] := by
  induction xs with
  | nil => rfl
  | cons c t ih =>
    unfold splitComma
    rw [if_neg (h c (List.mem_cons_self _ _))]
    rw [ih (fun c hc => h c (List.mem_cons_of_mem _ hc))]

theorem splitComma_append {xs ys : List Char} (h : ∀ c ∈ xs, c ≠ ',') :
    splitComma (xs ++ ',' :: ys) = xs :: splitComma ys := by
  induction xs with
  | nil =>
    simp only [List.nil_append]
    conv_lhs => unfold splitComma
    rw [if_pos rfl]
  | cons c t ih =>
    simp only [List.cons_append]
    conv_lhs => unfold splitComma
    rw [if_neg (h c (List.mem_cons_self _ _))]
    rw [ih (fun c hc => h c (List.mem_cons_of_mem _ hc))]

theorem pyStrip_no_space {l : List Char} (h : ∀ c ∈ l, pyIsSpace c = false) :
    pyStrip l = l := by
  unfold pyStrip
  rw [dropWhile_of_all h, dropWhile_of_all (by
    intro c hc
    exact h c (List.mem_reverse.mp hc)), List.reverse_reverse]

theorem pyStrip_cons_space (l : List Char) : pyStrip (' ' :: l) = pyStrip l := by
  unfold pyStrip
  rw [List.dropWhile_cons_of_pos (by decide)]

theorem binRestAux_of_binary {t : List Char} (hb : ∀ c ∈ t, c = '0' ∨ c = '1') :
    binRestAux false t = true := by
  induction t with
  | nil => rfl
  | cons c r ih =>
    have hr := ih (fun x hx => hb x (List.mem_cons_of_mem _ hx))
    rcases hb c (List.mem_cons_self _ _) with rfl | rfl <;> simp [binRestAux, hr]

theorem binGroupOK_of_binary {s : List Char} (hne : s ≠ [])
    (hb : ∀ c ∈ s, c = '0' ∨ c = '1') : binGroupOK s = true := by
  cases s with
  | nil => exact absurd rfl hne
  | cons c t =>
    have ht := binRestAux_of_binary (fun x hx => hb x (List.mem_cons_of_mem _ hx))
    rcases hb c (List.mem_cons_self _ _) with rfl | rfl <;> simp [binGroupOK, ht]

/-- `int(s, 2)` on a non-empty all-binary string is the plain binary
value. -/
theorem int2?_binary {s : List Char} (hne : s ≠ [])
    (hb : ∀ c ∈ s, c = '0' ∨ c = '1') : int2? s = some (bin_to_int s : Int) := by
  have hns : ∀ c ∈ s, pyIsSpace c = false := by
    intro c hc; rcases hb c hc with rfl | rfl <;> decide
  have hstrip : pyStrip s = s := pyStrip_no_space hns
  have hgrp : binGroupOK s = true := binGroupOK_of_binary hne hb
  obtain ⟨c, t, rfl⟩ : ∃ c t, s = c :: t := by
    cases s with
    | nil => exact absurd rfl hne
    | cons c t => exact ⟨c, t, rfl⟩
  have hb1 : t.take 1 ≠ ['b'] := by
    intro hc
    have hm : 'b' ∈ t := List.mem_of_mem_take (by rw [hc]; decide)
    rcases hb 'b' (List.mem_cons_of_mem _ hm) with h | h <;> exact absurd h (by decide)
  have hb2 : t.take 1 ≠ ['B'] := by
    intro hc
    have hm : 'B' ∈ t := List.mem_of_mem_take (by rw [hc]; decide)
    rcases hb 'B' (List.mem_cons_of_mem _ hm) with h | h <;> exact absurd h (by decide)
  have hfil : List.filter (fun x => !decide (x = '_')) t = t :=
    List.filter_eq_self.mpr (fun a ha => by
      rcases hb a (List.mem_cons_of_mem _ ha) with rfl | rfl <;> decide)
  unfold int2?
  rw [hstrip]
  rcases hb c (List.mem_cons_self _ _) with rfl | rfl <;>
    simp [hb1, hb2, hgrp, hfil]

/-- SMD.py `bin_to_int` on a non-empty all-binary string. -/
theorem bin_to_int?_binary {s : List Char} (hne : s ≠ [])
    (hb : ∀ c ∈ s, c = '0' ∨ c = '1') : bin_to_int? s = some (bin_to_int s : Int) := by
  unfold bin_to_int?
  rw [if_neg hne, int2?_binary hne hb]

/-- SMD.py `bin_to_signed_int` on a non-empty all-binary string agrees
with the two's-complement reading. -/
theorem bin_to_signed?_binary {s : List Char} (hne : s ≠ [])
    (hb : ∀ c ∈ s, c = '0' ∨ c = '1') :
    bin_to_signed_int? s = some (bin_to_signed_int s) := by
  have htest : (Int.land (bin_to_int s : Int) ((2 : Int) ^ (s.length - 1)) ≠ 0) ↔
      Nat.testBit (bin_to_int s) (s.length - 1) = true := by
    have h1 : Int.land (bin_to_int s : Int) ((2 : Int) ^ (s.length - 1)) =
        ((bin_to_int s &&& 2 ^ (s.length - 1) : Nat) : Int) := by
      rw [show ((2 : Int) ^ (s.length - 1)) = ((2 ^ (s.length - 1) : Nat) : Int) by push_cast; ring]
      rfl
    rw [h1, Nat.and_two_pow]
    cases hbit : Nat.testBit (bin_to_int s) (s.length - 1) <;> simp [hbit]
  unfold bin_to_signed_int? bin_to_signed_int
  rw [if_neg hne, if_neg hne, int2?_binary hne hb]
  simp only
  by_cases hbit : Nat.testBit (bin_to_int s) (s.length - 1)
  · rw [if_pos (htest.mpr hbit), if_pos hbit]
  · rw [if_neg (fun hc => hbit (htest.mp hc)), if_neg hbit]

theorem pyFormatB_all_bin (n w : Nat) : ∀ c ∈ pyFormatB n w, c = '0' ∨ c = '1' := by
  intro c hc
  unfold pyFormatB at hc
  rcases List.mem_append.mp hc with h | h
  · left; exact List.eq_of_mem_replicate h
  · by_cases h0 : n = 0
    · rw [if_pos h0] at h
      left; exact List.mem_singleton.mp h
    · rw [if_neg h0] at h
      obtain ⟨d, -, rfl⟩ := List.mem_map.mp h
      unfold bitChar
      by_cases hd : d = 1
      · right; rw [if_pos hd]
      · left; rw [if_neg hd]

/-- The raising `bin_to_int` on a padded binary numeral. -/
theorem bin_to_int?_pyFormatB (n w : Nat) : bin_to_int? (pyFormatB n w) = some (n : Int) := by
  rw [bin_to_int?_binary (pyFormatB_ne_nil n w) (pyFormatB_all_bin n w), bin_to_int_pyFormatB]

/-- The raising `bin_to_signed_int` decodes a two's-complement field back
to its in-range value. -/
theorem bin_to_signed?_twos {v : Int} {w : Nat} (hw : 0 < w)
    (h1 : -((2 : Int) ^ (w - 1)) ≤ v) (h2 : v < (2 : Int) ^ (w - 1)) :
    bin_to_signed_int? (twosComp v w) = some v := by
  have he : twosComp v w = pyFormatB ((v % ((2 : Int) ^ w)).toNat) w := rfl
  rw [he, bin_to_signed?_binary (pyFormatB_ne_nil _ _) (pyFormatB_all_bin _ _),
    bin_to_signed_int_twos hw h1 h2]

theorem intToDecChars_natCast (n : Nat) : intToDecChars (n : Int) = decChars n := by
  rw [intToDecChars_nonneg (Int.natCast_nonneg n)]
  norm_num


theorem head_not_space_of_all {l : List Char} (h : ∀ c ∈ l, pyIsSpace c = false) :
    ∀ c, l.head? = some c → pyIsSpace c = false := by
  intro c hc
  cases l with
  | nil => simp at hc
  | cons d t =>
    injection hc with hc
    subst hc
    exact h _ (List.mem_cons_self _ _)

theorem head_append_ne_dash {ds rest : List Char} (hne : ds ≠ [])
    (hdig : ∀ c ∈ ds, c.isDigit = true) : (ds ++ rest).head? ≠ some '-' := by
  cases ds with
  | nil => exact absurd rfl hne
  | cons c t =>
    intro hc
    simp only [List.cons_append, List.head?_cons] at hc
    injection hc with hc
    exact absurd (hdig c (List.mem_cons_self _ _)) (by rw [hc]; decide)

/-- Each canonical register token parses to its 5-bit code. -/
theorem parse_register_regName (n : Fin 32) :
    parse_register (regName n) = Except.ok (pyFormatB n.val 5) := by
  fin_cases n <;> rfl

/-- Each 5-bit code prints back to the canonical register token. -/
theorem get_register_name_code (n : Fin 32) :
    get_register_name (pyFormatB n.val 5) = regName n := by
  fin_cases n <;> rfl

theorem pyFormatB_reg_length (n : Fin 32) : (pyFormatB n.val 5).length = 5 :=
  pyFormatB_length (by norm_num) (by simpa using n.isLt)

theorem matchRegTok_regName_paren (n : Fin 32) :
    matchRegTok (regName n ++ [')']) = some (regName n, [')']) := by
  have h := @matchRegTok_canonical (decChars n.val) [')']
    (decChars_ne_nil _) (fun c hc => decChars_all_digit c hc)
    (fun c hc => by
      injection hc with hc
      subst hc
      decide)
  simpa [regName, List.cons_append] using h

/-- The canonical memory-operand text parses back to its offset and
register token. -/
theorem parse_memory_address_memText (off : Int) (n : Fin 32) :
    parse_memory_address (memText off n) = Except.ok (off, regName n) := by
  have hm : memMatchOffset (memText off n) = some (off, regName n) := by
    by_cases hoff : off < 0
    · have he : memText off n =
          '-' :: (decChars (-off).toNat ++ ('(' :: (regName n ++ [')']))) := by
        rw [memText, intToDecChars_neg hoff]
        simp [List.cons_append]
      have hp : ('(' :: (regName n ++ [')'])).head? = some '(' := rfl
      rw [he, memMatchOffset_eval_minus rfl (decChars_ne_nil _)
        (fun c hc => decChars_all_digit c hc) hp
        (matchRegTok_regName_paren n) rfl]
      rw [decVal_decChars, Int.toNat_of_nonneg (by omega), neg_neg]
    · have he : memText off n =
          decChars off.toNat ++ ('(' :: (regName n ++ [')'])) := by
        rw [memText, intToDecChars_nonneg (by omega)]
      have hp : ('(' :: (regName n ++ [')'])).head? = some '(' := rfl
      rw [he, memMatchOffset_eval_plain (decChars_ne_nil _)
        (fun c hc => decChars_all_digit c hc)
        (head_append_ne_dash (decChars_ne_nil _) (fun c hc => decChars_all_digit c hc)) hp
        (matchRegTok_regName_paren n) rfl]
      rw [decVal_decChars, Int.toNat_of_nonneg (by omega)]
  unfold parse_memory_address
  rw [filter_comma_eq_self (memText_no_comma off n)]
  simp only [hm]

/-- One comma-free operand after comma-splitting and stripping. -/
theorem splitComma_strip_one {X : List Char}
    (hx : ∀ c ∈ X, c ≠ ',') (hx2 : ∀ c ∈ X, pyIsSpace c = false) :
    (splitComma X).map pyStrip = [X] := by
  rw [splitComma_no_comma hx]
  simp only [List.map]
  rw [pyStrip_no_space hx2]

/-- Two comma-free operands in canonical `X, Y` layout. -/
theorem splitComma_strip_two {X Y : List Char}
    (hx : ∀ c ∈ X, c ≠ ',') (hy : ∀ c ∈ Y, c ≠ ',')
    (hx2 : ∀ c ∈ X, pyIsSpace c = false) (hy2 : ∀ c ∈ Y, pyIsSpace c = false) :
    (splitComma (X ++ ',' :: ' ' :: Y)).map pyStrip = [X, Y] := by
  rw [splitComma_append hx]
  rw [splitComma_no_comma (by
    intro c hc
    rcases List.mem_cons.mp hc with rfl | hc'
    · decide
    · exact hy c hc')]
  simp only [List.map]
  rw [pyStrip_no_space hx2, pyStrip_cons_space, pyStrip_no_space hy2]

/-- Three comma-free operands in canonical `X, Y, Z` layout. -/
theorem splitComma_strip_three {X Y Z : List Char}
    (hx : ∀ c ∈ X, c ≠ ',') (hy : ∀ c ∈ Y, c ≠ ',') (hz : ∀ c ∈ Z, c ≠ ',')
    (hx2 : ∀ c ∈ X, pyIsSpace c = false) (hy2 : ∀ c ∈ Y, pyIsSpace c = false)
    (hz2 : ∀ c ∈ Z, pyIsSpace c = false) :
    (splitComma (X ++ ',' :: ' ' :: (Y ++ ',' :: ' ' :: Z))).map pyStrip = [X, Y, Z] := by
  rw [splitComma_append hx]
  have he : (' ' :: (Y ++ ',' :: ' ' :: Z)) = (' ' :: Y) ++ ',' :: ' ' :: Z := by
    simp [List.cons_append]
  rw [he]
  rw [splitComma_append (by
    intro c hc
    rcases List.mem_cons.mp hc with rfl | hc'
    · decide
    · exact hy c hc')]
  rw [splitComma_no_comma (by
    intro c hc
    rcases List.mem_cons.mp hc with rfl | hc'
    · decide
    · exact hz c hc')]
  simp only [List.map]
  rw [pyStrip_no_space hx2, pyStrip_cons_space, pyStrip_no_space hy2,
    pyStrip_cons_space, pyStrip_no_space hz2]

/-- Extracting a middle field of a concatenated word. -/
theorem slice_mid {A B C : List Char} {a w : Nat}
    (ha : A.length = a) (hw : B.length = w) :
    ((A ++ (B ++ C)).drop a).take w = B := by
  subst ha
  subst hw
  rw [List.drop_left, List.take_left]

/-- Extracting the final field of a concatenated word. -/
theorem slice_last {A B : List Char} {a w : Nat}
    (ha : A.length = a) (hw : B.length = w) :
    ((A ++ B).drop a).take w = B := by
  subst ha
  subst hw
  rw [List.drop_left, List.take_length]

theorem take_pre {A B : List Char} {w : Nat} (hw : A.length = w) : (A ++ B).take w = A := by
  subst hw
  exact List.take_left A B

theorem drop_pre {A B : List Char} {a : Nat} (ha : A.length = a) : (A ++ B).drop a = B := by
  subst ha
  exact List.drop_left A B

theorem roundtrip_pint (rs : Fin 32) (T : List (List Char × Nat)) (a b : Nat) :
    assemble_line (Instr.pint rs).render T a = Except.ok (Instr.pint rs).encodeWord ∧
    (Instr.pint rs).encodeWord.length = 32 ∧
    disassemble_instruction (Instr.pint rs).encodeWord b =
      Except.ok (Instr.pint rs).renderResolved := by
  have hsplit : splitMax1 ("pint ".data ++ regName rs) = ["pint".data, regName rs] :=
    @splitMax1_token "pint".data (regName rs) (by decide) (by decide)
      (by simp [regName]) (head_not_space_of_all (regName_not_space rs))
  have hops : (splitComma (regName rs)).map pyStrip = [regName rs] :=
    splitComma_strip_one (regName_no_comma rs) (regName_not_space rs)
  have hlow : "pint".data.map Char.toLower = "pint".data := rfl
  have hop : alookup "pint".data opcodes = some "001001".data := rfl
  have hlen5 : (pyFormatB rs.val 5).length = 5 := pyFormatB_reg_length rs
  have hword : (Instr.pint rs).encodeWord =
      "001001".data ++ pyFormatB rs.val 5 ++ List.replicate 21 '0' := rfl
  have hlen : (Instr.pint rs).encodeWord.length = 32 := by
    rw [hword]
    simp [hlen5]
  refine ⟨?_, hlen, ?_⟩
  · have hrender : (Instr.pint rs).render = "pint".data ++ ' ' :: regName rs := rfl
    rw [hrender]
    unfold assemble_line
    rw [@splitMax1_token "pint".data (regName rs) (by decide) (by decide)
      (by simp [regName]) (head_not_space_of_all (regName_not_space rs))]
    simp [hop, hops, parse_register_regName, Instr.encodeWord, Except.instMonad, Except.bind]
  · have hassoc : (Instr.pint rs).encodeWord =
        "001001".data ++ (pyFormatB rs.val 5 ++ List.replicate 21 '0') := by
      rw [hword, List.append_assoc]
    have htk6 : (Instr.pint rs).encodeWord.take 6 = "001001".data := by
      rw [hassoc]
      exact take_pre rfl
    have hne1 : (Instr.pint rs).encodeWord ≠ List.replicate 32 '1' := by
      refine ne_of_take_ne 6 ?_
      rw [htk6]
      decide
    have hs1 : (((Instr.pint rs).encodeWord.drop 6).take 5) = pyFormatB rs.val 5 := by
      rw [hassoc, drop_pre (show ("001001".data : List Char).length = 6 from rfl)]
      exact take_pre hlen5
    have hmn : alookup "001001".data opcodes_to_mnemonics = some "pint".data := rfl
    unfold disassemble_instruction
    rw [if_neg (by rw [hlen]; decide)]
    simp only [List.drop_zero, htk6]
    rw [if_neg hne1]
    rw [if_neg (by
      rintro ⟨-, h2⟩
      exact absurd h2 (by decide))]
    unfold disasmGeneric
    rw [hmn]
    simp [hs1, get_register_name_code, Instr.renderResolved, Instr.render]

theorem intToDecChars_ne_nil (v : Int) : intToDecChars v ≠ [] := by
  unfold intToDecChars
  by_cases h : v < 0
  · rw [if_pos h]; exact List.cons_ne_nil _ _
  · rw [if_neg h]; exact decChars_ne_nil _

theorem head_append_of_all {l r : List Char} (hne : l ≠ [])
    (h : ∀ c ∈ l, pyIsSpace c = false) :
    ∀ c, (l ++ r).head? = some c → pyIsSpace c = false := by
  cases l with
  | nil => exact absurd rfl hne
  | cons d t =>
    intro c hc
    simp only [List.cons_append, List.head?_cons] at hc
    injection hc with hc
    subst hc
    exact h _ (List.mem_cons_self _ _)

theorem roundtrip_ldim (imm : Int) (rd : Fin 32) (T : List (List Char × Nat)) (a b : Nat)
    (h1 : -((2 : Int) ^ 20) ≤ imm) (h2 : imm < (2 : Int) ^ 20) :
    assemble_line (Instr.ldim imm rd).render T a = Except.ok (Instr.ldim imm rd).encodeWord ∧
    (Instr.ldim imm rd).encodeWord.length = 32 ∧
    disassemble_instruction (Instr.ldim imm rd).encodeWord b =
      Except.ok (Instr.ldim imm rd).renderResolved := by
  have hic : ∀ c ∈ intToDecChars imm, c ≠ ',' := intToDecChars_no_comma imm
  have his : ∀ c ∈ intToDecChars imm, pyIsSpace c = false := intToDecChars_not_space imm
  have hrender : (Instr.ldim imm rd).render =
      "ldim".data ++ ' ' :: (intToDecChars imm ++ ',' :: ' ' :: regName rd) := rfl
  have hsplit : splitMax1 ("ldim".data ++ ' ' :: (intToDecChars imm ++ ',' :: ' ' :: regName rd)) =
      ["ldim".data, intToDecChars imm ++ ',' :: ' ' :: regName rd] :=
    @splitMax1_token "ldim".data (intToDecChars imm ++ ',' :: ' ' :: regName rd)
      (by decide) (by decide)
      (by simp [intToDecChars_ne_nil imm])
      (head_append_of_all (intToDecChars_ne_nil imm) his)
  have hops : (splitComma (intToDecChars imm ++ ',' :: ' ' :: regName rd)).map pyStrip =
      [intToDecChars imm, regName rd] :=
    splitComma_strip_two hic (regName_no_comma rd) his (regName_not_space rd)
  have hop : alookup "ldim".data opcodes = some "010101".data := rfl
  have himm : parse_immediate (intToDecChars imm) 21 = Except.ok (twosComp imm 21) := by
    rw [parse_immediate_intToDecChars]
    exact encode_immediate_eq_ok (by norm_num) (by simpa using h1)
      (by norm_num at h2 ⊢; omega)
  have htc : (twosComp imm 21).length = 21 := encoded_length (by norm_num)
  have hword : (Instr.ldim imm rd).encodeWord =
      "010101".data ++ twosComp imm 21 ++ pyFormatB rd.val 5 := rfl
  have hlen : (Instr.ldim imm rd).encodeWord.length = 32 := by
    rw [hword]
    simp [htc, pyFormatB_reg_length rd]
  refine ⟨?_, hlen, ?_⟩
  · rw [hrender]
    unfold assemble_line
    rw [hsplit]
    simp [hop, hops, parse_register_regName, himm, Instr.encodeWord,
      Except.instMonad, Except.bind]
  · have hassoc : (Instr.ldim imm rd).encodeWord =
        "010101".data ++ (twosComp imm 21 ++ pyFormatB rd.val 5) := by
      rw [hword, List.append_assoc]
    have htk6 : (Instr.ldim imm rd).encodeWord.take 6 = "010101".data := by
      rw [hassoc]
      exact take_pre rfl
    have hne1 : (Instr.ldim imm rd).encodeWord ≠ List.replicate 32 '1' := by
      refine ne_of_take_ne 6 ?_
      rw [htk6]
      decide
    have hs1 : (((Instr.ldim imm rd).encodeWord.drop 6).take 21) = twosComp imm 21 := by
      rw [hassoc, drop_pre (show ("010101".data : List Char).length = 6 from rfl)]
      exact take_pre htc
    have hs2 : (((Instr.ldim imm rd).encodeWord.drop 27).take 5) = pyFormatB rd.val 5 := by
      rw [hword, drop_pre (show ("010101".data ++ twosComp imm 21).length = 27 by simp [htc])]
      have ht := List.take_length (pyFormatB rd.val 5)
      rw [pyFormatB_reg_length rd] at ht
      exact ht
    have hsig : bin_to_signed_int? (twosComp imm 21) = some imm :=
      bin_to_signed?_twos (by norm_num) (by simpa using h1) (by simpa using h2)
    have hmn : alookup "010101".data opcodes_to_mnemonics = some "ldim".data := rfl
    unfold disassemble_instruction
    rw [if_neg (by rw [hlen]; decide)]
    simp only [List.drop_zero, htk6]
    rw [if_neg hne1]
    rw [if_neg (by
      rintro ⟨-, h2⟩
      exact absurd h2 (by decide))]
    unfold disasmGeneric
    rw [hmn]
    simp [hs1, hs2, hsig, get_register_name_code, Instr.renderResolved, Instr.render]

theorem take_all {A : List Char} {w : Nat} (hw : A.length = w) : A.take w = A := by
  subst hw
  exact List.take_length A

theorem roundtrip_jmp (lbl : List Char) (ad : Nat) (T : List (List Char × Nat)) (ca b : Nat)
    (hI : identOk lbl) (hlk : alookup lbl T = some ad) (hlt : ad < 2 ^ 26) :
    assemble_line (Instr.jmp lbl ad).render T ca = Except.ok (Instr.jmp lbl ad).encodeWord ∧
    (Instr.jmp lbl ad).encodeWord.length = 32 ∧
    disassemble_instruction (Instr.jmp lbl ad).encodeWord b =
      Except.ok (Instr.jmp lbl ad).renderResolved := by
  have hlc : ∀ c ∈ lbl, c ≠ ',' :=
    fun c hc => isIdentChar_ne_comma (List.all_eq_true.mp hI.2 c hc)
  have hls : ∀ c ∈ lbl, pyIsSpace c = false :=
    fun c hc => isIdentChar_not_space (List.all_eq_true.mp hI.2 c hc)
  have hrender : (Instr.jmp lbl ad).render = "jmp".data ++ ' ' :: lbl := rfl
  have hsplit : splitMax1 ("jmp".data ++ ' ' :: lbl) = ["jmp".data, lbl] :=
    @splitMax1_token "jmp".data lbl (by decide) (by decide) hI.1
      (head_not_space_of_all hls)
  have hops : (splitComma lbl).map pyStrip = [lbl] := splitComma_strip_one hlc hls
  have hop : alookup "jmp".data opcodes = some "001000".data := rfl
  have hpf : (pyFormatB ad 26).length = 26 := pyFormatB_length (by norm_num) hlt
  have hword : (Instr.jmp lbl ad).encodeWord = "001000".data ++ pyFormatB ad 26 := rfl
  have hlen : (Instr.jmp lbl ad).encodeWord.length = 32 := by
    rw [hword]
    simp [hpf]
  refine ⟨?_, hlen, ?_⟩
  · rw [hrender]
    unfold assemble_line
    rw [hsplit]
    simp [hop, hops, hlk, Instr.encodeWord, Except.instMonad, Except.bind]
  · have htk6 : (Instr.jmp lbl ad).encodeWord.take 6 = "001000".data := by
      rw [hword]
      exact take_pre rfl
    have hne1 : (Instr.jmp lbl ad).encodeWord ≠ List.replicate 32 '1' := by
      refine ne_of_take_ne 6 ?_
      rw [htk6]
      decide
    have hs1 : (((Instr.jmp lbl ad).encodeWord.drop 6).take 26) = pyFormatB ad 26 := by
      rw [hword, drop_pre (show ("001000".data : List Char).length = 6 from rfl)]
      exact take_all hpf
    have hmn : alookup "001000".data opcodes_to_mnemonics = some "jmp".data := rfl
    unfold disassemble_instruction
    rw [if_neg (by rw [hlen]; decide)]
    simp only [List.drop_zero, htk6]
    rw [if_neg hne1]
    rw [if_neg (by
      rintro ⟨-, h2⟩
      exact absurd h2 (by decide))]
    unfold disasmGeneric
    rw [hmn]
    simp [hs1, bin_to_int?_pyFormatB, intToDecChars_natCast, Instr.renderResolved]

theorem roundtrip_forL (rs : Fin 32) (lbl : List Char) (ad : Nat)
    (T : List (List Char × Nat)) (ca b : Nat)
    (hI : identOk lbl) (hlk : alookup lbl T = some ad) (hlt : ad < 2 ^ 21) :
    assemble_line (Instr.forL rs lbl ad).render T ca =
      Except.ok (Instr.forL rs lbl ad).encodeWord ∧
    (Instr.forL rs lbl ad).encodeWord.length = 32 ∧
    disassemble_instruction (Instr.forL rs lbl ad).encodeWord b =
      Except.ok (Instr.forL rs lbl ad).renderResolved := by
  have hlc : ∀ c ∈ lbl, c ≠ ',' :=
    fun c hc => isIdentChar_ne_comma (List.all_eq_true.mp hI.2 c hc)
  have hls : ∀ c ∈ lbl, pyIsSpace c = false :=
    fun c hc => isIdentChar_not_space (List.all_eq_true.mp hI.2 c hc)
  have hrender : (Instr.forL rs lbl ad).render =
      "for".data ++ ' ' :: (regName rs ++ ',' :: ' ' :: lbl) := rfl
  have hsplit : splitMax1 ("for".data ++ ' ' :: (regName rs ++ ',' :: ' ' :: lbl)) =
      ["for".data, regName rs ++ ',' :: ' ' :: lbl] :=
    @splitMax1_token "for".data (regName rs ++ ',' :: ' ' :: lbl) (by decide) (by decide)
      (by simp [regName])
      (head_append_of_all (by simp [regName]) (regName_not_space rs))
  have hops : (splitComma (regName rs ++ ',' :: ' ' :: lbl)).map pyStrip =
      [regName rs, lbl] :=
    splitComma_strip_two (regName_no_comma rs) hlc (regName_not_space rs) hls
  have hop : alookup "for".data opcodes = some "001110".data := rfl
  have hpf : (pyFormatB ad 21).length = 21 := pyFormatB_length (by norm_num) hlt
  have hword : (Instr.forL rs lbl ad).encodeWord =
      "001110".data ++ pyFormatB rs.val 5 ++ pyFormatB ad 21 := rfl
  have hlen : (Instr.forL rs lbl ad).encodeWord.length = 32 := by
    rw [hword]
    simp [hpf, pyFormatB_reg_length rs]
  refine ⟨?_, hlen, ?_⟩
  · rw [hrender]
    unfold assemble_line
    rw [hsplit]
    simp [hop, hops, hlk, parse_register_regName, Instr.encodeWord,
      Except.instMonad, Except.bind]
  · have hassoc : (Instr.forL rs lbl ad).encodeWord =
        "001110".data ++ (pyFormatB rs.val 5 ++ pyFormatB ad 21) := by
      rw [hword, List.append_assoc]
    have htk6 : (Instr.forL rs lbl ad).encodeWord.take 6 = "001110".data := by
      rw [hassoc]
      exact take_pre rfl
    have hne1 : (Instr.forL rs lbl ad).encodeWord ≠ List.replicate 32 '1' := by
      refine ne_of_take_ne 6 ?_
      rw [htk6]
      decide
    have hs1 : (((Instr.forL rs lbl ad).encodeWord.drop 6).take 5) = pyFormatB rs.val 5 := by
      rw [hassoc, drop_pre (show ("001110".data : List Char).length = 6 from rfl)]
      exact take_pre (pyFormatB_reg_length rs)
    have hs2 : (((Instr.forL rs lbl ad).encodeWord.drop 11).take 21) = pyFormatB ad 21 := by
      rw [hword, drop_pre
        (show ("001110".data ++ pyFormatB rs.val 5).length = 11 by
          simp [pyFormatB_reg_length rs])]
      exact take_all hpf
    have hmn : alookup "001110".data opcodes_to_mnemonics = some "for".data := rfl
    unfold disassemble_instruction
    rw [if_neg (by rw [hlen]; decide)]
    simp only [List.drop_zero, htk6]
    rw [if_neg hne1]
    rw [if_neg (by
      rintro ⟨-, h2⟩
      exact absurd h2 (by decide))]
    unfold disasmGeneric
    rw [hmn]
    simp [hs1, hs2, bin_to_int?_pyFormatB, intToDecChars_natCast, get_register_name_code,
      Instr.renderResolved]

theorem roundtrip_ldad (lbl : List Char) (ad : Nat) (rd : Fin 32)
    (T : List (List Char × Nat)) (ca b : Nat)
    (hI : identOk lbl) (hlk : alookup lbl T = some ad) (hlt : ad < 2 ^ 21) :
    assemble_line (Instr.ldad lbl ad rd).render T ca =
      Except.ok (Instr.ldad lbl ad rd).encodeWord ∧
    (Instr.ldad lbl ad rd).encodeWord.length = 32 ∧
    disassemble_instruction (Instr.ldad lbl ad rd).encodeWord b =
      Except.ok (Instr.ldad lbl ad rd).renderResolved := by
  have hlc : ∀ c ∈ lbl, c ≠ ',' :=
    fun c hc => isIdentChar_ne_comma (List.all_eq_true.mp hI.2 c hc)
  have hls : ∀ c ∈ lbl, pyIsSpace c = false :=
    fun c hc => isIdentChar_not_space (List.all_eq_true.mp hI.2 c hc)
  have hrender : (Instr.ldad lbl ad rd).render =
      "ldad".data ++ ' ' :: (lbl ++ ',' :: ' ' :: regName rd) := rfl
  have hsplit : splitMax1 ("ldad".data ++ ' ' :: (lbl ++ ',' :: ' ' :: regName rd)) =
      ["ldad".data, lbl ++ ',' :: ' ' :: regName rd] :=
    @splitMax1_token "ldad".data (lbl ++ ',' :: ' ' :: regName rd) (by decide) (by decide)
      (by simp [hI.1])
      (head_append_of_all hI.1 hls)
  have hops : (splitComma (lbl ++ ',' :: ' ' :: regName rd)).map pyStrip =
      [lbl, regName rd] :=
    splitComma_strip_two hlc (regName_no_comma rd) hls (regName_not_space rd)
  have hop : alookup "ldad".data opcodes = some "010100".data := rfl
  have hpf : (pyFormatB ad 21).length = 21 := pyFormatB_length (by norm_num) hlt
  have hword : (Instr.ldad lbl ad rd).encodeWord =
      "010100".data ++ pyFormatB ad 21 ++ pyFormatB rd.val 5 := rfl
  have hlen : (Instr.ldad lbl ad rd).encodeWord.length = 32 := by
    rw [hword]
    simp [hpf, pyFormatB_reg_length rd]
  refine ⟨?_, hlen, ?_⟩
  · rw [hrender]
    unfold assemble_line
    rw [hsplit]
    simp [hop, hops, hlk, parse_register_regName, Instr.encodeWord,
      Except.instMonad, Except.bind]
  · have hassoc : (Instr.ldad lbl ad rd).encodeWord =
        "010100".data ++ (pyFormatB ad 21 ++ pyFormatB rd.val 5) := by
      rw [hword, List.append_assoc]
    have htk6 : (Instr.ldad lbl ad rd).encodeWord.take 6 = "010100".data := by
      rw [hassoc]
      exact take_pre rfl
    have hne1 : (Instr.ldad lbl ad rd).encodeWord ≠ List.replicate 32 '1' := by
      refine ne_of_take_ne 6 ?_
      rw [htk6]
      decide
    have hs1 : (((Instr.ldad lbl ad rd).encodeWord.drop 6).take 21) = pyFormatB ad 21 := by
      rw [hassoc, drop_pre (show ("010100".data : List Char).length = 6 from rfl)]
      exact take_pre hpf
    have hs2 : (((Instr.ldad lbl ad rd).encodeWord.drop 27).take 5) = pyFormatB rd.val 5 := by
      rw [hword, drop_pre (show ("010100".data ++ pyFormatB ad 21).length = 27 by simp [hpf])]
      exact take_all (pyFormatB_reg_length rd)
    have hmn : alookup "010100".data opcodes_to_mnemonics = some "ldad".data := rfl
    unfold disassemble_instruction
    rw [if_neg (by rw [hlen]; decide)]
    simp only [List.drop_zero, htk6]
    rw [if_neg hne1]
    rw [if_neg (by
      rintro ⟨-, h2⟩
      exact absurd h2 (by decide))]
    unfold disasmGeneric
    rw [hmn]
    simp [hs1, hs2, bin_to_int?_pyFormatB, intToDecChars_natCast, get_register_name_code,
      Instr.renderResolved]

theorem memText_ne_nil (off : Int) (n : Fin 32) : memText off n ≠ [] := by
  unfold memText
  intro hc
  rcases List.append_eq_nil.mp hc with ⟨h1, h2⟩
  simp at h2

theorem roundtrip_ldwd (off : Int) (rs rt : Fin 32) (T : List (List Char × Nat)) (ca b : Nat)
    (h1 : -((2 : Int) ^ 15) ≤ off) (h2 : off < (2 : Int) ^ 15) :
    assemble_line (Instr.ldwd off rs rt).render T ca =
      Except.ok (Instr.ldwd off rs rt).encodeWord ∧
    (Instr.ldwd off rs rt).encodeWord.length = 32 ∧
    disassemble_instruction (Instr.ldwd off rs rt).encodeWord b =
      Except.ok (Instr.ldwd off rs rt).renderResolved := by
  have hrender : (Instr.ldwd off rs rt).render =
      "ldwd".data ++ ' ' :: (memText off rs ++ ',' :: ' ' :: regName rt) := rfl
  have hsplit : splitMax1 ("ldwd".data ++ ' ' :: (memText off rs ++ ',' :: ' ' :: regName rt)) =
      ["ldwd".data, memText off rs ++ ',' :: ' ' :: regName rt] :=
    @splitMax1_token "ldwd".data (memText off rs ++ ',' :: ' ' :: regName rt)
      (by decide) (by decide)
      (by simp [memText_ne_nil off rs])
      (head_append_of_all (memText_ne_nil off rs) (memText_not_space off rs))
  have hops : (splitComma (memText off rs ++ ',' :: ' ' :: regName rt)).map pyStrip =
      [memText off rs, regName rt] :=
    splitComma_strip_two (memText_no_comma off rs) (regName_no_comma rt)
      (memText_not_space off rs) (regName_not_space rt)
  have hop : alookup "ldwd".data opcodes = some "000110".data := rfl
  have hmem := parse_memory_address_memText off rs
  have himm : parse_immediate (intToDecChars off) 16 = Except.ok (twosComp off 16) := by
    rw [parse_immediate_intToDecChars]
    exact encode_immediate_eq_ok (by norm_num) (by simpa using h1)
      (by norm_num at h2 ⊢; omega)
  have htc : (twosComp off 16).length = 16 := encoded_length (by norm_num)
  have hword : (Instr.ldwd off rs rt).encodeWord =
      "000110".data ++ pyFormatB rs.val 5 ++ pyFormatB rt.val 5 ++ twosComp off 16 := rfl
  have hlen : (Instr.ldwd off rs rt).encodeWord.length = 32 := by
    rw [hword]
    simp [htc, pyFormatB_reg_length rs, pyFormatB_reg_length rt]
  refine ⟨?_, hlen, ?_⟩
  · rw [hrender]
    unfold assemble_line
    rw [hsplit]
    simp [hop, hops, hmem, himm, parse_register_regName, Instr.encodeWord,
      Except.instMonad, Except.bind]
  · have hassoc : (Instr.ldwd off rs rt).encodeWord =
        "000110".data ++ (pyFormatB rs.val 5 ++ (pyFormatB rt.val 5 ++ twosComp off 16)) := by
      rw [hword]
      simp [List.append_assoc]
    have htk6 : (Instr.ldwd off rs rt).encodeWord.take 6 = "000110".data := by
      rw [hassoc]
      exact take_pre rfl
    have hne1 : (Instr.ldwd off rs rt).encodeWord ≠ List.replicate 32 '1' := by
      refine ne_of_take_ne 6 ?_
      rw [htk6]
      decide
    have hs1 : (((Instr.ldwd off rs rt).encodeWord.drop 6).take 5) = pyFormatB rs.val 5 := by
      rw [hassoc, drop_pre (show ("000110".data : List Char).length = 6 from rfl)]
      exact take_pre (pyFormatB_reg_length rs)
    have hs2 : (((Instr.ldwd off rs rt).encodeWord.drop 11).take 5) = pyFormatB rt.val 5 := by
      have he : (Instr.ldwd off rs rt).encodeWord =
          ("000110".data ++ pyFormatB rs.val 5) ++ (pyFormatB rt.val 5 ++ twosComp off 16) := by
        rw [hword]
        simp [List.append_assoc]
      rw [he, drop_pre (show ("000110".data ++ pyFormatB rs.val 5).length = 11 by
        simp [pyFormatB_reg_length rs])]
      exact take_pre (pyFormatB_reg_length rt)
    have hs3 : (((Instr.ldwd off rs rt).encodeWord.drop 16).take 16) = twosComp off 16 := by
      rw [hword, drop_pre (show ("000110".data ++ pyFormatB rs.val 5 ++ pyFormatB rt.val 5).length = 16 by
        simp [pyFormatB_reg_length rs, pyFormatB_reg_length rt])]
      exact take_all htc
    have hsig : bin_to_signed_int? (twosComp off 16) = some off :=
      bin_to_signed?_twos (by norm_num) (by simpa using h1) (by simpa using h2)
    have hmn : alookup "000110".data opcodes_to_mnemonics = some "ldwd".data := rfl
    unfold disassemble_instruction
    rw [if_neg (by rw [hlen]; decide)]
    simp only [List.drop_zero, htk6]
    rw [if_neg hne1]
    rw [if_neg (by
      rintro ⟨-, h2⟩
      exact absurd h2 (by decide))]
    unfold disasmGeneric
    rw [hmn]
    simp [hs1, hs2, hs3, hsig, get_register_name_code, Instr.renderResolved,
      Instr.render, memText]

theorem roundtrip_srwd (rt : Fin 32) (off : Int) (rs : Fin 32)
    (T : List (List Char × Nat)) (ca b : Nat)
    (h1 : -((2 : Int) ^ 15) ≤ off) (h2 : off < (2 : Int) ^ 15) :
    assemble_line (Instr.srwd rt off rs).render T ca =
      Except.ok (Instr.srwd rt off rs).encodeWord ∧
    (Instr.srwd rt off rs).encodeWord.length = 32 ∧
    disassemble_instruction (Instr.srwd rt off rs).encodeWord b =
      Except.ok (Instr.srwd rt off rs).renderResolved := by
  have hrender : (Instr.srwd rt off rs).render =
      "srwd".data ++ ' ' :: (regName rt ++ ',' :: ' ' :: memText off rs) := rfl
  have hsplit : splitMax1 ("srwd".data ++ ' ' :: (regName rt ++ ',' :: ' ' :: memText off rs)) =
      ["srwd".data, regName rt ++ ',' :: ' ' :: memText off rs] :=
    @splitMax1_token "srwd".data (regName rt ++ ',' :: ' ' :: memText off rs)
      (by decide) (by decide)
      (by simp [regName])
      (head_append_of_all (by simp [regName]) (regName_not_space rt))
  have hops : (splitComma (regName rt ++ ',' :: ' ' :: memText off rs)).map pyStrip =
      [regName rt, memText off rs] :=
    splitComma_strip_two (regName_no_comma rt) (memText_no_comma off rs)
      (regName_not_space rt) (memText_not_space off rs)
  have hop : alookup "srwd".data opcodes = some "000111".data := rfl
  have hmem := parse_memory_address_memText off rs
  have himm : parse_immediate (intToDecChars off) 16 = Except.ok (twosComp off 16) := by
    rw [parse_immediate_intToDecChars]
    exact encode_immediate_eq_ok (by norm_num) (by simpa using h1)
      (by norm_num at h2 ⊢; omega)
  have htc : (twosComp off 16).length = 16 := encoded_length (by norm_num)
  have hword : (Instr.srwd rt off rs).encodeWord =
      "000111".data ++ pyFormatB rs.val 5 ++ pyFormatB rt.val 5 ++ twosComp off 16 := rfl
  have hlen : (Instr.srwd rt off rs).encodeWord.length = 32 := by
    rw [hword]
    simp [htc, pyFormatB_reg_length rs, pyFormatB_reg_length rt]
  refine ⟨?_, hlen, ?_⟩
  · rw [hrender]
    unfold assemble_line
    rw [hsplit]
    simp [hop, hops, hmem, himm, parse_register_regName, Instr.encodeWord,
      Except.instMonad, Except.bind]
  · have hassoc : (Instr.srwd rt off rs).encodeWord =
        "000111".data ++ (pyFormatB rs.val 5 ++ (pyFormatB rt.val 5 ++ twosComp off 16)) := by
      rw [hword]
      simp [List.append_assoc]
    have htk6 : (Instr.srwd rt off rs).encodeWord.take 6 = "000111".data := by
      rw [hassoc]
      exact take_pre rfl
    have hne1 : (Instr.srwd rt off rs).encodeWord ≠ List.replicate 32 '1' := by
      refine ne_of_take_ne 6 ?_
      rw [htk6]
      decide
    have hs1 : (((Instr.srwd rt off rs).encodeWord.drop 6).take 5) = pyFormatB rs.val 5 := by
      rw [hassoc, drop_pre (show ("000111".data : List Char).length = 6 from rfl)]
      exact take_pre (pyFormatB_reg_length rs)
    have hs2 : (((Instr.srwd rt off rs).encodeWord.drop 11).take 5) = pyFormatB rt.val 5 := by
      have he : (Instr.srwd rt off rs).encodeWord =
          ("000111".data ++ pyFormatB rs.val 5) ++ (pyFormatB rt.val 5 ++ twosComp off 16) := by
        rw [hword]
        simp [List.append_assoc]
      rw [he, drop_pre (show ("000111".data ++ pyFormatB rs.val 5).length = 11 by
        simp [pyFormatB_reg_length rs])]
      exact take_pre (pyFormatB_reg_length rt)
    have hs3 : (((Instr.srwd rt off rs).encodeWord.drop 16).take 16) = twosComp off 16 := by
      rw [hword, drop_pre (show ("000111".data ++ pyFormatB rs.val 5 ++ pyFormatB rt.val 5).length = 16 by
        simp [pyFormatB_reg_length rs, pyFormatB_reg_length rt])]
      exact take_all htc
    have hsig : bin_to_signed_int? (twosComp off 16) = some off :=
      bin_to_signed?_twos (by norm_num) (by simpa using h1) (by simpa using h2)
    have hmn : alookup "000111".data opcodes_to_mnemonics = some "srwd".data := rfl
    unfold disassemble_instruction
    rw [if_neg (by rw [hlen]; decide)]
    simp only [List.drop_zero, htk6]
    rw [if_neg hne1]
    rw [if_neg (by
      rintro ⟨-, h2⟩
      exact absurd h2 (by decide))]
    unfold disasmGeneric
    rw [hmn]
    simp [hs1, hs2, hs3, hsig, get_register_name_code, Instr.renderResolved,
      Instr.render, memText]

theorem roundtrip_pstr (off : Int) (rs : Fin 32) (T : List (List Char × Nat)) (ca b : Nat)
    (h1 : -((2 : Int) ^ 20) ≤ off) (h2 : off < (2 : Int) ^ 20) :
    assemble_line (Instr.pstr off rs).render T ca =
      Except.ok (Instr.pstr off rs).encodeWord ∧
    (Instr.pstr off rs).encodeWord.length = 32 ∧
    disassemble_instruction (Instr.pstr off rs).encodeWord b =
      Except.ok (Instr.pstr off rs).renderResolved := by
  have hrender : (Instr.pstr off rs).render = "pstr".data ++ ' ' :: memText off rs := rfl
  have hsplit : splitMax1 ("pstr".data ++ ' ' :: memText off rs) =
      ["pstr".data, memText off rs] :=
    @splitMax1_token "pstr".data (memText off rs) (by decide) (by decide)
      (memText_ne_nil off rs)
      (head_not_space_of_all (memText_not_space off rs))
  have hops : (splitComma (memText off rs)).map pyStrip = [memText off rs] :=
    splitComma_strip_one (memText_no_comma off rs) (memText_not_space off rs)
  have hop : alookup "pstr".data opcodes = some "001010".data := rfl
  have hmem := parse_memory_address_memText off rs
  have himm : parse_immediate (intToDecChars off) 21 = Except.ok (twosComp off 21) := by
    rw [parse_immediate_intToDecChars]
    exact encode_immediate_eq_ok (by norm_num) (by simpa using h1)
      (by norm_num at h2 ⊢; omega)
  have htc : (twosComp off 21).length = 21 := encoded_length (by norm_num)
  have hword : (Instr.pstr off rs).encodeWord =
      "001010".data ++ twosComp off 21 ++ pyFormatB rs.val 5 := rfl
  have hlen : (Instr.pstr off rs).encodeWord.length = 32 := by
    rw [hword]
    simp [htc, pyFormatB_reg_length rs]
  refine ⟨?_, hlen, ?_⟩
  · rw [hrender]
    unfold assemble_line
    rw [hsplit]
    simp [hop, hops, hmem, himm, parse_register_regName, Instr.encodeWord,
      Except.instMonad, Except.bind]
  · have hassoc : (Instr.pstr off rs).encodeWord =
        "001010".data ++ (twosComp off 21 ++ pyFormatB rs.val 5) := by
      rw [hword, List.append_assoc]
    have htk6 : (Instr.pstr off rs).encodeWord.take 6 = "001010".data := by
      rw [hassoc]
      exact take_pre rfl
    have hne1 : (Instr.pstr off rs).encodeWord ≠ List.replicate 32 '1' := by
      refine ne_of_take_ne 6 ?_
      rw [htk6]
      decide
    have hs1 : (((Instr.pstr off rs).encodeWord.drop 6).take 21) = twosComp off 21 := by
      rw [hassoc, drop_pre (show ("001010".data : List Char).length = 6 from rfl)]
      exact take_pre htc
    have hs2 : (((Instr.pstr off rs).encodeWord.drop 27).take 5) = pyFormatB rs.val 5 := by
      rw [hword, drop_pre (show ("001010".data ++ twosComp off 21).length = 27 by simp [htc])]
      exact take_all (pyFormatB_reg_length rs)
    have hsig : bin_to_signed_int? (twosComp off 21) = some off :=
      bin_to_signed?_twos (by norm_num) (by simpa using h1) (by simpa using h2)
    have hmn : alookup "001010".data opcodes_to_mnemonics = some "pstr".data := rfl
    unfold disassemble_instruction
    rw [if_neg (by rw [hlen]; decide)]
    simp only [List.drop_zero, htk6]
    rw [if_neg hne1]
    rw [if_neg (by
      rintro ⟨-, h2⟩
      exact absurd h2 (by decide))]
    unfold disasmGeneric
    rw [hmn]
    simp [hs1, hs2, hsig, get_register_name_code, Instr.renderResolved,
      Instr.render, memText]

theorem roundtrip_rtype (m : RMnem) (rs rt rd : Fin 32) (T : List (List Char × Nat)) (ca b : Nat) :
    assemble_line (Instr.rtype m rs rt rd).render T ca =
      Except.ok (Instr.rtype m rs rt rd).encodeWord ∧
    (Instr.rtype m rs rt rd).encodeWord.length = 32 ∧
    disassemble_instruction (Instr.rtype m rs rt rd).encodeWord b =
      Except.ok (Instr.rtype m rs rt rd).renderResolved := by
  have hne_text : m.text ≠ [] := by cases m <;> decide
  have hns : ∀ c ∈ m.text, pyIsSpace c = false := by cases m <;> decide
  have hlow : m.text.map Char.toLower = m.text := by cases m <;> rfl
  have hnclr : ¬(m.text = "clr".data) := by cases m <;> decide
  have hnend : ¬(m.text = "end".data) := by cases m <;> decide
  have hop : alookup m.text opcodes = some m.opcode := by cases m <;> rfl
  have hmem : m.text ∈ ["cmb".data, "mns".data, "mlt".data, "dvd".data, "mdlo".data] := by
    cases m <;> decide
  have hop6 : m.opcode.length = 6 := by cases m <;> rfl
  have hmn : alookup m.opcode opcodes_to_mnemonics = some m.text := by cases m <;> rfl
  have hrender : (Instr.rtype m rs rt rd).render =
      m.text ++ ' ' :: (regName rs ++ ',' :: ' ' :: (regName rt ++ ',' :: ' ' :: regName rd)) := rfl
  have hsplit : splitMax1
      (m.text ++ ' ' :: (regName rs ++ ',' :: ' ' :: (regName rt ++ ',' :: ' ' :: regName rd))) =
      [m.text, regName rs ++ ',' :: ' ' :: (regName rt ++ ',' :: ' ' :: regName rd)] :=
    @splitMax1_token m.text
      (regName rs ++ ',' :: ' ' :: (regName rt ++ ',' :: ' ' :: regName rd)) hne_text hns
      (by simp [regName])
      (head_append_of_all (by simp [regName]) (regName_not_space rs))
  have hops : (splitComma
      (regName rs ++ ',' :: ' ' :: (regName rt ++ ',' :: ' ' :: regName rd))).map pyStrip =
      [regName rs, regName rt, regName rd] :=
    splitComma_strip_three (regName_no_comma rs) (regName_no_comma rt) (regName_no_comma rd)
      (regName_not_space rs) (regName_not_space rt) (regName_not_space rd)
  have hword : (Instr.rtype m rs rt rd).encodeWord =
      m.opcode ++ pyFormatB rs.val 5 ++ pyFormatB rt.val 5 ++ pyFormatB rd.val 5 ++
        List.replicate 11 '0' := rfl
  have hlen : (Instr.rtype m rs rt rd).encodeWord.length = 32 := by
    rw [hword]
    simp [hop6, pyFormatB_reg_length rs, pyFormatB_reg_length rt, pyFormatB_reg_length rd]
  refine ⟨?_, hlen, ?_⟩
  · rw [hrender]
    unfold assemble_line
    rw [hsplit]
    simp [hlow, hnclr, hnend, hop, hmem, hops, parse_register_regName, Instr.encodeWord,
      Except.instMonad, Except.bind]
  · have hassoc : (Instr.rtype m rs rt rd).encodeWord =
        m.opcode ++ (pyFormatB rs.val 5 ++ (pyFormatB rt.val 5 ++ (pyFormatB rd.val 5 ++
          List.replicate 11 '0'))) := by
      rw [hword]
      simp [List.append_assoc]
    have htk6 : (Instr.rtype m rs rt rd).encodeWord.take 6 = m.opcode := by
      rw [hassoc]
      exact take_pre hop6
    have hne1 : (Instr.rtype m rs rt rd).encodeWord ≠ List.replicate 32 '1' := by
      refine ne_of_take_ne 6 ?_
      rw [htk6]
      cases m <;> decide
    have hs1 : (((Instr.rtype m rs rt rd).encodeWord.drop 6).take 5) = pyFormatB rs.val 5 := by
      rw [hassoc, drop_pre hop6]
      exact take_pre (pyFormatB_reg_length rs)
    have hs2 : (((Instr.rtype m rs rt rd).encodeWord.drop 11).take 5) = pyFormatB rt.val 5 := by
      have he : (Instr.rtype m rs rt rd).encodeWord =
          (m.opcode ++ pyFormatB rs.val 5) ++ (pyFormatB rt.val 5 ++ (pyFormatB rd.val 5 ++
            List.replicate 11 '0')) := by
        rw [hword]
        simp [List.append_assoc]
      rw [he, drop_pre (show (m.opcode ++ pyFormatB rs.val 5).length = 11 by
        simp [hop6, pyFormatB_reg_length rs])]
      exact take_pre (pyFormatB_reg_length rt)
    have hs3 : (((Instr.rtype m rs rt rd).encodeWord.drop 16).take 5) = pyFormatB rd.val 5 := by
      have he : (Instr.rtype m rs rt rd).encodeWord =
          (m.opcode ++ pyFormatB rs.val 5 ++ pyFormatB rt.val 5) ++ (pyFormatB rd.val 5 ++
            List.replicate 11 '0') := by
        rw [hword]
        simp [List.append_assoc]
      rw [he, drop_pre (show (m.opcode ++ pyFormatB rs.val 5 ++ pyFormatB rt.val 5).length = 16 by
        simp [hop6, pyFormatB_reg_length rs, pyFormatB_reg_length rt])]
      exact take_pre (pyFormatB_reg_length rd)
    unfold disassemble_instruction
    rw [if_neg (by rw [hlen]; decide)]
    simp only [List.drop_zero, htk6]
    rw [if_neg hne1]
    rw [if_neg (by
      rintro ⟨-, h2⟩
      revert h2
      cases m <;> decide)]
    unfold disasmGeneric
    rw [hmn]
    simp [hmem, hs1, hs2, hs3, get_register_name_code, Instr.renderResolved, Instr.render]

theorem roundtrip_sqrt (rs rd : Fin 32) (T : List (List Char × Nat)) (ca b : Nat) :
    assemble_line (Instr.sq .sqrt rs rd).render T ca =
      Except.ok (Instr.sq .sqrt rs rd).encodeWord ∧
    (Instr.sq .sqrt rs rd).encodeWord.length = 32 ∧
    disassemble_instruction (Instr.sq .sqrt rs rd).encodeWord b =
      Except.ok (Instr.sq .sqrt rs rd).renderResolved := by
  have hrender : (Instr.sq .sqrt rs rd).render =
      "sqrt".data ++ ' ' :: (regName rs ++ ',' :: ' ' :: regName rd) := rfl
  have hsplit : splitMax1 ("sqrt".data ++ ' ' :: (regName rs ++ ',' :: ' ' :: regName rd)) =
      ["sqrt".data, regName rs ++ ',' :: ' ' :: regName rd] :=
    @splitMax1_token "sqrt".data (regName rs ++ ',' :: ' ' :: regName rd)
      (by decide) (by decide)
      (by simp [regName])
      (head_append_of_all (by simp [regName]) (regName_not_space rs))
  have hops : (splitComma (regName rs ++ ',' :: ' ' :: regName rd)).map pyStrip =
      [regName rs, regName rd] :=
    splitComma_strip_two (regName_no_comma rs) (regName_no_comma rd)
      (regName_not_space rs) (regName_not_space rd)
  have hop : alookup "sqrt".data opcodes = some "001111".data := rfl
  have hword : (Instr.sq .sqrt rs rd).encodeWord =
      "001111".data ++ pyFormatB rs.val 5 ++ pyFormatB rd.val 5 ++ List.replicate 16 '0' := rfl
  have hlen : (Instr.sq .sqrt rs rd).encodeWord.length = 32 := by
    rw [hword]
    simp [pyFormatB_reg_length rs, pyFormatB_reg_length rd]
  refine ⟨?_, hlen, ?_⟩
  · rw [hrender]
    unfold assemble_line
    rw [hsplit]
    simp [hop, hops, parse_register_regName, Instr.encodeWord, SqMnem.opcode,
      Except.instMonad, Except.bind]
  · have hassoc : (Instr.sq .sqrt rs rd).encodeWord =
        "001111".data ++ (pyFormatB rs.val 5 ++ (pyFormatB rd.val 5 ++ List.replicate 16 '0')) := by
      rw [hword]
      simp [List.append_assoc]
    have htk6 : (Instr.sq .sqrt rs rd).encodeWord.take 6 = "001111".data := by
      rw [hassoc]
      exact take_pre rfl
    have hne1 : (Instr.sq .sqrt rs rd).encodeWord ≠ List.replicate 32 '1' := by
      refine ne_of_take_ne 6 ?_
      rw [htk6]
      decide
    have hs1 : (((Instr.sq .sqrt rs rd).encodeWord.drop 6).take 5) = pyFormatB rs.val 5 := by
      rw [hassoc, drop_pre (show ("001111".data : List Char).length = 6 from rfl)]
      exact take_pre (pyFormatB_reg_length rs)
    have hs2 : (((Instr.sq .sqrt rs rd).encodeWord.drop 11).take 5) = pyFormatB rd.val 5 := by
      have he : (Instr.sq .sqrt rs rd).encodeWord =
          ("001111".data ++ pyFormatB rs.val 5) ++ (pyFormatB rd.val 5 ++ List.replicate 16 '0') := by
        rw [hword]
        simp [List.append_assoc]
      rw [he, drop_pre (show ("001111".data ++ pyFormatB rs.val 5).length = 11 by
        simp [pyFormatB_reg_length rs])]
      exact take_pre (pyFormatB_reg_length rd)
    have hmn : alookup "001111".data opcodes_to_mnemonics = some "sqrt".data := rfl
    unfold disassemble_instruction
    rw [if_neg (by rw [hlen]; decide)]
    simp only [List.drop_zero, htk6]
    rw [if_neg hne1]
    rw [if_neg (by
      rintro ⟨-, h2⟩
      exact absurd h2 (by decide))]
    unfold disasmGeneric
    rw [hmn]
    simp [hs1, hs2, get_register_name_code, Instr.renderResolved, Instr.render, SqMnem.text]

theorem roundtrip_sqr (rs rd : Fin 32) (T : List (List Char × Nat)) (ca b : Nat) :
    assemble_line (Instr.sq .sqr rs rd).render T ca =
      Except.ok (Instr.sq .sqr rs rd).encodeWord ∧
    (Instr.sq .sqr rs rd).encodeWord.length = 32 ∧
    disassemble_instruction (Instr.sq .sqr rs rd).encodeWord b =
      Except.ok (Instr.sq .sqr rs rd).renderResolved := by
  have hrender : (Instr.sq .sqr rs rd).render =
      "sqr".data ++ ' ' :: (regName rs ++ ',' :: ' ' :: regName rd) := rfl
  have hsplit : splitMax1 ("sqr".data ++ ' ' :: (regName rs ++ ',' :: ' ' :: regName rd)) =
      ["sqr".data, regName rs ++ ',' :: ' ' :: regName rd] :=
    @splitMax1_token "sqr".data (regName rs ++ ',' :: ' ' :: regName rd)
      (by decide) (by decide)
      (by simp [regName])
      (head_append_of_all (by simp [regName]) (regName_not_space rs))
  have hops : (splitComma (regName rs ++ ',' :: ' ' :: regName rd)).map pyStrip =
      [regName rs, regName rd] :=
    splitComma_strip_two (regName_no_comma rs) (regName_no_comma rd)
      (regName_not_space rs) (regName_not_space rd)
  have hop : alookup "sqr".data opcodes = some "010001".data := rfl
  have hword : (Instr.sq .sqr rs rd).encodeWord =
      "010001".data ++ pyFormatB rs.val 5 ++ pyFormatB rd.val 5 ++ List.replicate 16 '0' := rfl
  have hlen : (Instr.sq .sqr rs rd).encodeWord.length = 32 := by
    rw [hword]
    simp [pyFormatB_reg_length rs, pyFormatB_reg_length rd]
  refine ⟨?_, hlen, ?_⟩
  · rw [hrender]
    unfold assemble_line
    rw [hsplit]
    simp [hop, hops, parse_register_regName, Instr.encodeWord, SqMnem.opcode,
      Except.instMonad, Except.bind]
  · have hassoc : (Instr.sq .sqr rs rd).encodeWord =
        "010001".data ++ (pyFormatB rs.val 5 ++ (pyFormatB rd.val 5 ++ List.replicate 16 '0')) := by
      rw [hword]
      simp [List.append_assoc]
    have htk6 : (Instr.sq .sqr rs rd).encodeWord.take 6 = "010001".data := by
      rw [hassoc]
      exact take_pre rfl
    have hne1 : (Instr.sq .sqr rs rd).encodeWord ≠ List.replicate 32 '1' := by
      refine ne_of_take_ne 6 ?_
      rw [htk6]
      decide
    have hs1 : (((Instr.sq .sqr rs rd).encodeWord.drop 6).take 5) = pyFormatB rs.val 5 := by
      rw [hassoc, drop_pre (show ("010001".data : List Char).length = 6 from rfl)]
      exact take_pre (pyFormatB_reg_length rs)
    have hs2 : (((Instr.sq .sqr rs rd).encodeWord.drop 11).take 5) = pyFormatB rd.val 5 := by
      have he : (Instr.sq .sqr rs rd).encodeWord =
          ("010001".data ++ pyFormatB rs.val 5) ++ (pyFormatB rd.val 5 ++ List.replicate 16 '0') := by
        rw [hword]
        simp [List.append_assoc]
      rw [he, drop_pre (show ("010001".data ++ pyFormatB rs.val 5).length = 11 by
        simp [pyFormatB_reg_length rs])]
      exact take_pre (pyFormatB_reg_length rd)
    have hmn : alookup "010001".data opcodes_to_mnemonics = some "sqr".data := rfl
    unfold disassemble_instruction
    rw [if_neg (by rw [hlen]; decide)]
    simp only [List.drop_zero, htk6]
    rw [if_neg hne1]
    rw [if_neg (by
      rintro ⟨-, h2⟩
      exact absurd h2 (by decide))]
    unfold disasmGeneric
    rw [hmn]
    simp [hs1, hs2, get_register_name_code, Instr.renderResolved, Instr.render, SqMnem.text]

theorem roundtrip_br (m : BrMnem) (rs rt : Fin 32) (lbl : List Char) (ad : Nat)
    (T : List (List Char × Nat)) (ca b : Nat)
    (hI : identOk lbl) (hlk : alookup lbl T = some ad) (hlt : ad < 2 ^ 16) :
    assemble_line (Instr.br m rs rt lbl ad).render T ca =
      Except.ok (Instr.br m rs rt lbl ad).encodeWord ∧
    (Instr.br m rs rt lbl ad).encodeWord.length = 32 ∧
    disassemble_instruction (Instr.br m rs rt lbl ad).encodeWord b =
      Except.ok (Instr.br m rs rt lbl ad).renderResolved := by
  have hlc : ∀ c ∈ lbl, c ≠ ',' :=
    fun c hc => isIdentChar_ne_comma (List.all_eq_true.mp hI.2 c hc)
  have hls : ∀ c ∈ lbl, pyIsSpace c = false :=
    fun c hc => isIdentChar_not_space (List.all_eq_true.mp hI.2 c hc)
  have hne_text : m.text ≠ [] := by cases m <;> decide
  have hns : ∀ c ∈ m.text, pyIsSpace c = false := by cases m <;> decide
  have hlow : m.text.map Char.toLower = m.text := by cases m <;> rfl
  have hnclr : ¬(m.text = "clr".data) := by cases m <;> decide
  have hnend : ¬(m.text = "end".data) := by cases m <;> decide
  have hop : alookup m.text opcodes = some m.opcode := by cases m <;> rfl
  have hn1 : m.text ∉ ["cmb".data, "mns".data, "mlt".data, "dvd".data, "mdlo".data] := by
    cases m <;> decide
  have hn2 : m.text ∉ ["cmbi".data, "mnsi".data, "mlti".data, "dvdi".data] := by
    cases m <;> decide
  have hn3 : ¬(m.text = "ldwd".data) := by cases m <;> decide
  have hn4 : ¬(m.text = "srwd".data) := by cases m <;> decide
  have hn5 : ¬(m.text = "jmp".data) := by cases m <;> decide
  have hn6 : ¬(m.text = "pint".data) := by cases m <;> decide
  have hn7 : ¬(m.text = "pstr".data) := by cases m <;> decide
  have hn8 : ¬(m.text = "for".data) := by cases m <;> decide
  have hn9 : ¬(m.text = "sqrt".data) := by cases m <;> decide
  have hn10 : ¬(m.text = "sqr".data) := by cases m <;> decide
  have hmem : m.text ∈ ["ife".data, "ifne".data] := by cases m <;> decide
  have hop6 : m.opcode.length = 6 := by cases m <;> rfl
  have hmn : alookup m.opcode opcodes_to_mnemonics = some m.text := by cases m <;> rfl
  have hrender : (Instr.br m rs rt lbl ad).render =
      m.text ++ ' ' :: (regName rs ++ ',' :: ' ' :: (regName rt ++ ',' :: ' ' :: lbl)) := rfl
  have hsplit : splitMax1
      (m.text ++ ' ' :: (regName rs ++ ',' :: ' ' :: (regName rt ++ ',' :: ' ' :: lbl))) =
      [m.text, regName rs ++ ',' :: ' ' :: (regName rt ++ ',' :: ' ' :: lbl)] :=
    @splitMax1_token m.text
      (regName rs ++ ',' :: ' ' :: (regName rt ++ ',' :: ' ' :: lbl)) hne_text hns
      (by simp [regName])
      (head_append_of_all (by simp [regName]) (regName_not_space rs))
  have hops : (splitComma
      (regName rs ++ ',' :: ' ' :: (regName rt ++ ',' :: ' ' :: lbl))).map pyStrip =
      [regName rs, regName rt, lbl] :=
    splitComma_strip_three (regName_no_comma rs) (regName_no_comma rt) hlc
      (regName_not_space rs) (regName_not_space rt) hls
  have hpf : (pyFormatB ad 16).length = 16 := pyFormatB_length (by norm_num) hlt
  have hword : (Instr.br m rs rt lbl ad).encodeWord =
      m.opcode ++ pyFormatB rs.val 5 ++ pyFormatB rt.val 5 ++ pyFormatB ad 16 := rfl
  have hlen : (Instr.br m rs rt lbl ad).encodeWord.length = 32 := by
    rw [hword]
    simp [hop6, pyFormatB_reg_length rs, pyFormatB_reg_length rt, hpf]
  refine ⟨?_, hlen, ?_⟩
  · rw [hrender]
    unfold assemble_line
    rw [hsplit]
    simp [hlow, hnclr, hnend, hop, hn1, hn2, hn3, hn4, hn5, hn6, hn7, hn8, hn9, hn10,
      hmem, hops, hlk, parse_register_regName, Instr.encodeWord,
      Except.instMonad, Except.bind]
  · have hassoc : (Instr.br m rs rt lbl ad).encodeWord =
        m.opcode ++ (pyFormatB rs.val 5 ++ (pyFormatB rt.val 5 ++ pyFormatB ad 16)) := by
      rw [hword]
      simp [List.append_assoc]
    have htk6 : (Instr.br m rs rt lbl ad).encodeWord.take 6 = m.opcode := by
      rw [hassoc]
      exact take_pre hop6
    have hne1 : (Instr.br m rs rt lbl ad).encodeWord ≠ List.replicate 32 '1' := by
      refine ne_of_take_ne 6 ?_
      rw [htk6]
      cases m <;> decide
    have hs1 : (((Instr.br m rs rt lbl ad).encodeWord.drop 6).take 5) = pyFormatB rs.val 5 := by
      rw [hassoc, drop_pre hop6]
      exact take_pre (pyFormatB_reg_length rs)
    have hs2 : (((Instr.br m rs rt lbl ad).encodeWord.drop 11).take 5) = pyFormatB rt.val 5 := by
      have he : (Instr.br m rs rt lbl ad).encodeWord =
          (m.opcode ++ pyFormatB rs.val 5) ++ (pyFormatB rt.val 5 ++ pyFormatB ad 16) := by
        rw [hword]
        simp [List.append_assoc]
      rw [he, drop_pre (show (m.opcode ++ pyFormatB rs.val 5).length = 11 by
        simp [hop6, pyFormatB_reg_length rs])]
      exact take_pre (pyFormatB_reg_length rt)
    have hs3 : (((Instr.br m rs rt lbl ad).encodeWord.drop 16).take 16) = pyFormatB ad 16 := by
      rw [hword, drop_pre (show (m.opcode ++ pyFormatB rs.val 5 ++ pyFormatB rt.val 5).length = 16 by
        simp [hop6, pyFormatB_reg_length rs, pyFormatB_reg_length rt])]
      exact take_all hpf
    unfold disassemble_instruction
    rw [if_neg (by rw [hlen]; decide)]
    simp only [List.drop_zero, htk6]
    rw [if_neg hne1]
    rw [if_neg (by
      rintro ⟨-, h2⟩
      revert h2
      cases m <;> decide)]
    unfold disasmGeneric
    rw [hmn]
    simp [hn1, hn2, hn3, hn4, hn5, hn6, hn7, hn8, hn9, hn10, hmem, hs1, hs2, hs3,
      bin_to_int?_pyFormatB, intToDecChars_natCast, get_register_name_code,
      Instr.renderResolved, Instr.render]

/-- C1 (amended): for every instruction that is syntactically valid in the
amended sense — outside the register-immediate arithmetic group, with
signed offset/immediate operands in the two's-complement range of their
field and label operands resolving through the table to an address that
fits its field — assembling the canonical rendering yields the expected
32-bit word and disassembling that word yields the canonical rendering
with label operands replaced by their resolved addresses.  (The original
claim over all accepted instructions is refuted by
`ldim_max_accepted_but_decodes_negative`.) -/
theorem assemble_disassemble_round_trip (i : Instr) (T : List (List Char × Nat))
    (a b : Nat) (h : i.valid T) :
    assemble_line i.render T a = Except.ok i.encodeWord ∧
    i.encodeWord.length = 32 ∧
    disassemble_instruction i.encodeWord b = Except.ok i.renderResolved := by
  cases i with
  | rtype m rs rt rd => exact roundtrip_rtype m rs rt rd T a b
  | iarith m rs imm rd => exact (h : False).elim
  | ldwd off rs rt => exact roundtrip_ldwd off rs rt T a b h.1 h.2
  | srwd rt off rs => exact roundtrip_srwd rt off rs T a b h.1 h.2
  | jmp lbl ad => exact roundtrip_jmp lbl ad T a b h.1 h.2.1 h.2.2
  | pint rs => exact roundtrip_pint rs T a b
  | pstr off rs => exact roundtrip_pstr off rs T a b h.1 h.2
  | forL rs lbl ad => exact roundtrip_forL rs lbl ad T a b h.1 h.2.1 h.2.2
  | sq m rs rd =>
    cases m with
    | sqrt => exact roundtrip_sqrt rs rd T a b
    | sqr => exact roundtrip_sqr rs rd T a b
  | br m rs rt lbl ad => exact roundtrip_br m rs rt lbl ad T a b h.1 h.2.1 h.2.2
  | ldad lbl ad rd => exact roundtrip_ldad lbl ad rd T a b h.1 h.2.1 h.2.2
  | ldim imm rd => exact roundtrip_ldim imm rd T a b h.1 h.2
  | clr => exact ⟨rfl, rfl, rfl⟩
  | endI => exact ⟨rfl, rfl, rfl⟩

/-- C1 witness: the concrete instruction `ldim 10, %r1` is valid and
round-trips. -/
theorem assemble_disassemble_round_trip_check :
    (Instr.ldim 10 1).valid [] ∧
    (assemble_line (Instr.ldim 10 1).render [] 0 = Except.ok (Instr.ldim 10 1).encodeWord ∧
     (Instr.ldim 10 1).encodeWord.length = 32 ∧
     disassemble_instruction (Instr.ldim 10 1).encodeWord 0 =
       Except.ok (Instr.ldim 10 1).renderResolved) :=
  ⟨by decide, assemble_disassemble_round_trip (Instr.ldim 10 1) [] 0 0 (by decide)⟩

/-- C1 counterexample: the assembler accepts `ldim 2097151, %r1`
(`parse_immediate` allows the full unsigned range `0 .. 2^21 - 1`), but
the disassembler reads the 21-bit field as two's complement and prints
`ldim -1, %r1`, so decode ∘ encode is not the identity on every accepted
instruction. -/
theorem ldim_max_accepted_but_decodes_negative :
    assemble_line "ldim 2097151, %r1".data [] 0 =
      Except.ok ("010101".data ++ (List.replicate 21 '1' ++ "00001".data)) ∧
    disassemble_instruction ("010101".data ++ (List.replicate 21 '1' ++ "00001".data)) 0 =
      Except.ok "ldim -1, %r1".data ∧
    ("ldim -1, %r1".data : List Char) ≠ "ldim 2097151, %r1".data :=
  ⟨by rfl, by rfl, by decide⟩
